import Mathlib

/-!
Verification development for the spreadsheet cell-format engine
(`cell_fmt.go`: format-string parser, section selector, renderer).

Modelling conventions (shallow embedding):
* Go byte strings are modelled as `List Char` (the format mini-language is ASCII);
  Go's `nil` byte slice and the empty slice are both modelled as `[]`.
* Go `float64` payloads are modelled as exact rationals `ℚ`; `int64` as `ℤ`.
* Go panics (slice out of range, division by zero, "unreachable" states) are
  modelled as `Option`/error results, never as junk values on reachable paths.
* Go loops are modelled by structural recursion on a fuel argument; every loop
  iteration of the source consumes at least one input byte, so the wrappers pass
  `input.length` as fuel, which can never be exhausted before the loop exits.
-/

set_option maxRecDepth 100000

attribute [local semireducible] Rat.add Rat.mul Rat.sub Rat.inv

namespace Xlsx

/-- Token kinds of the format mini-language (Go `FmtTokenType`). -/
inductive FmtTokenType
  | TokInvalid
  | TokCellText
  | TokGeneral
  | TokColor
  | TokNumInt
  | TokNumDec
  | TokNumDecSign
  | TokNumExp
  | TokNumFracNum
  | TokNumFracSign
  | TokNumFracDenom
  | TokNumPct
  | TokSpace
  | TokRepeat
  | TokCondition
  | TokAMPM
  | TokMonth
  | TokDay
  | TokYear
  | TokHour
  | TokMinute
  | TokSecond
  | TokSecFraction
  | TokTotalHours
  | TokTotalMinutes
  | TokTotalSeconds
  | TokLiteral
  deriving DecidableEq, Repr

/-- Go `FmtToken` (fields `Type`, `Size`, `Data`; `Type` is renamed `typ`
because `Type` is a Lean keyword). -/
structure FmtToken where
  typ : FmtTokenType := .TokInvalid
  size : Nat := 0
  data : List Char := []
  deriving DecidableEq, Repr

/-- Go `FormatType`. -/
inductive FormatType
  | NoType
  | TextFormat
  | TimeFormat
  | NumberFormat
  | BoolFormat
  | ErrorFormat
  deriving DecidableEq, Repr

/-- Go `FormatSubType`. -/
inductive FormatSubType
  | NoSubType
  | DateTime
  | Date
  | Time
  | Duration
  deriving DecidableEq, Repr

/-- Go `Section` (fields `Type`, `SubType`, `Tokens`). -/
structure Section where
  typ : FormatType := .NoType
  subTyp : FormatSubType := .NoSubType
  tokens : List FmtToken := []
  deriving DecidableEq, Repr

/-- Go `CellType` (from the cell model source file). -/
inductive CellType
  | CellTypeString
  | CellTypeFormula
  | CellTypeNumeric
  | CellTypeBool
  | CellTypeInline
  | CellTypeError
  deriving DecidableEq, Repr

/-- Go `CellFormat` (fields `Sections`, `IsConditional`). -/
structure CellFormat where
  sections : List Section := []
  isConditional : Bool := false
  deriving DecidableEq, Repr

/-! ### Scanner utilities -/

/-- Helper for `readRepeat`: length of the run of `ch` at the head, and the rest. -/
def repeatRun (ch : Char) : List Char → List Char × Nat
  | [] => ([], 0)
  | c :: rest =>
    if c = ch then
      let (rem, n) := repeatRun ch rest
      (rem, n + 1)
    else (c :: rest, 0)

/-- Go `readRepeat`: reads the maximal run of identical bytes at the head of
the input, returning the remainder, the byte and the run length.  The Go
version has the precondition that the input is non-empty (it would panic on
empty input); every call site guarantees it, and the `[]` branch here is a
harmless default. -/
def readRepeat : List Char → List Char × Char × Nat
  | [] => ([], ' ', 0)
  | ch :: rest =>
    let (rem, n) := repeatRun ch rest
    (rem, ch, n + 1)

/-- Go `readChars`: maximal prefix whose bytes all occur in `chars`, plus the
remainder. -/
def readChars (input chars : List Char) : List Char × List Char :=
  match input with
  | [] => ([], [])
  | c :: rest =>
    if c ∈ chars then
      let (out, rem) := readChars rest chars
      (c :: out, rem)
    else ([], c :: rest)

/-- Loop body of Go `readToChar`, with fuel (the Go loop consumes at least two
bytes per iteration, so `input.length` fuel always suffices).  Mirrors the
Go code exactly: looks for the first occurrence of `ch`; if none, returns
`(nil, input)` discarding any accumulated text; if the occurrence is escaped
by a backslash, strips the backslash, keeps the character and continues. -/
def readToCharLoop (fuel : Nat) (txt : List Char) (input : List Char) (ch : Char) :
    List Char × List Char :=
  match fuel with
  | 0 => ([], input)
  | fuel + 1 =>
    match input.findIdx? (· = ch) with
    | none => ([], input)
    | some i =>
      if i = 0 ∨ input.getD (i - 1) ' ' ≠ '\\' then
        (txt ++ input.take i, input.drop (i + 1))
      else
        readToCharLoop fuel (txt ++ input.take (i - 1) ++ [ch]) (input.drop (i + 1)) ch

/-- Go `readToChar`. -/
def readToChar (input : List Char) (ch : Char) : List Char × List Char :=
  readToCharLoop (input.length + 1) [] input ch

/-- Go `skipEscape`. -/
def skipEscape (input : List Char) : List Char × List Char :=
  if input.length > 1 then ((input.drop 1).take 1, input.drop 2)
  else ([], [])

/-- Go `flush`: moves the pending literal buffer into a single `TokLiteral`. -/
def flush (tokens : List FmtToken) (other : List Char) : List FmtToken × List Char :=
  if other.isEmpty then (tokens, other)
  else (tokens ++ [{ typ := .TokLiteral, data := other }], [])

/-- First token type in the list that is not `Literal`/`Space`/`Repeat`
(`TokInvalid` when none); shared body of the Go index loops `prevTokenType`
and `nextTokenType`. -/
def firstNonTriv : List FmtToken → FmtTokenType
  | [] => .TokInvalid
  | t :: rest =>
    if t.typ = .TokLiteral ∨ t.typ = .TokSpace ∨ t.typ = .TokRepeat then firstNonTriv rest
    else t.typ

/-- Go `prevTokenType`: scans indices `i-1, i-2, …` skipping trivial tokens. -/
def prevTokenType (tokens : List FmtToken) (i : Nat) : FmtTokenType :=
  firstNonTriv (tokens.take i).reverse

/-- Go `nextTokenType`: scans indices `i+1, i+2, …` skipping trivial tokens. -/
def nextTokenType (tokens : List FmtToken) (i : Nat) : FmtTokenType :=
  firstNonTriv (tokens.drop (i + 1))

/-- Go `LastTokenIdxByType` (returns -1 when absent; modelled as `none`). -/
def LastTokenIdxByType (tokens : List FmtToken) (findType : FmtTokenType) : Option Nat :=
  (tokens.reverse.findIdx? (·.typ = findType)).map (fun j => tokens.length - 1 - j)

example : readRepeat ("aaabbc".toList) = ("bbc".toList, 'a', 3) := by decide
example : readChars ("abgh".toList) ("ab".toList) = ("ab".toList, "gh".toList) := by decide
example : readChars ("gh".toList) ("ab".toList) = ([], "gh".toList) := by decide
example : readToChar ("no term".toList) '"' = ([], "no term".toList) := by decide
example : readToChar ("quoted\" string".toList) '"' = ("quoted".toList, " string".toList) := by
  decide
example : readToChar ("quoted esc\\\"aped\" string".toList) '"'
    = ("quoted esc\"aped".toList, " string".toList) := by decide
example : skipEscape ("\\foo".toList) = ("f".toList, "oo".toList) := by decide
example : skipEscape ("\\".toList) = ([], []) := by decide

/-! ### Common sub-parser -/

/-- Go `tokenizeCommon`: one step shared by the time and numeric tokenizers
and the top level.  Returns `(tokens, rem, other)` in the Go order.  The `[]`
branch is unreachable (all callers pass a non-empty remainder). -/
def tokenizeCommon (tokens : List FmtToken) (rem other : List Char) :
    List FmtToken × List Char × List Char :=
  match rem with
  | [] => (tokens, rem, other)
  | ch :: rest =>
    if ch = '\\' then
      let se := skipEscape (ch :: rest)
      (tokens, se.2, other ++ se.1)
    else if ch = '"' then
      let rt := readToChar rest '"'
      (tokens, rt.2, other ++ rt.1)
    else if ch = '_' ∨ ch = '*' then
      if rest.length ≥ 1 then
        let tokType : FmtTokenType := if ch = '*' then .TokRepeat else .TokSpace
        let fl := flush tokens other
        (fl.1 ++ [{ typ := tokType, data := rest.take 1 }], rest.drop 1, fl.2)
      else
        -- the Go source appends a literal '_' for a trailing '_' or '*'
        (tokens, rest, other ++ ['_'])
    else
      (tokens, rest, other ++ [ch])

/-! ### Time sub-parser -/

/-- State threaded through the Go `tokenizeTime` loop. -/
structure TimeScanState where
  tokens : List FmtToken := []
  other : List Char := []
  hasDate : Bool := false
  hasTime : Bool := false
  hasTotal : Bool := false
  rem : List Char := []
  deriving DecidableEq, Repr

/-- The `TLOOP` loop of Go `tokenizeTime`.  Fuel-based structural recursion;
each iteration of the source consumes at least one byte, so the wrapper's
`format.length` fuel is never exhausted. -/
def timeLoop (fuel : Nat) (s : TimeScanState) : TimeScanState :=
  match fuel with
  | 0 => s
  | fuel + 1 =>
    match s.rem with
    | [] => s
    | ch :: rest =>
      if ch = 'y' ∨ ch = 'm' ∨ ch = 'd' ∨ ch = 'h' ∨ ch = 's' ∨ ch = '0' then
        let rr := readRepeat (ch :: rest)
        let ft : FmtTokenType :=
          if ch = 'y' then .TokYear
          else if ch = 'm' then .TokMonth
          else if ch = 'd' then .TokDay
          else if ch = 'h' then .TokHour
          else if ch = 's' then .TokSecond
          else .TokSecFraction
        let hd := s.hasDate || ch = 'y' || ch = 'd'
        let ht := s.hasTime || ch = 'h' || ch = 's' || ch = '0'
        let fl := flush s.tokens s.other
        timeLoop fuel { s with tokens := fl.1 ++ [{ typ := ft, size := rr.2.2 }],
                               other := fl.2, hasDate := hd, hasTime := ht, rem := rr.1 }
      else if ch = '[' then
        if (ch :: rest).length < 3 then
          timeLoop fuel { s with other := s.other ++ ['['], rem := rest }
        else
          let rr := readRepeat rest
          match rr.1 with
          | ']' :: after =>
            if rr.2.1 = 'h' ∨ rr.2.1 = 'm' ∨ rr.2.1 = 's' then
              let ft : FmtTokenType :=
                if rr.2.1 = 'h' then .TokTotalHours
                else if rr.2.1 = 'm' then .TokTotalMinutes
                else .TokTotalSeconds
              let fl := flush s.tokens s.other
              timeLoop fuel { s with tokens := fl.1 ++ [{ typ := ft, size := rr.2.2 }],
                                     other := fl.2, hasTotal := true, rem := after }
            else
              timeLoop fuel { s with other := s.other ++ ['['], rem := rest }
          | _ =>
            timeLoop fuel { s with other := s.other ++ ['['], rem := rest }
      else if ch = 'A' ∨ ch = 'a' then
        if (ch :: rest).take 3 = "A/P".toList ∨ (ch :: rest).take 3 = "a/p".toList then
          let fl := flush s.tokens s.other
          timeLoop fuel { s with tokens := fl.1 ++ [{ typ := .TokAMPM, size := 1, data := [ch] }],
                                 other := fl.2, rem := rest.drop 2 }
        else if (ch :: rest).take 5 = "AM/PM".toList ∨ (ch :: rest).take 5 = "am/pm".toList then
          let fl := flush s.tokens s.other
          timeLoop fuel { s with tokens := fl.1 ++ [{ typ := .TokAMPM, size := 2, data := [ch] }],
                                 other := fl.2, rem := rest.drop 4 }
        else
          timeLoop fuel { s with other := s.other ++ [ch], rem := rest }
      else if ch = ';' then
        let fl := flush s.tokens s.other
        { s with tokens := fl.1, other := fl.2, rem := rest }
      else
        let tc := tokenizeCommon s.tokens (ch :: rest) s.other
        timeLoop fuel { s with tokens := tc.1, other := tc.2.2, rem := tc.2.1 }

/-- Go `tokenizeTime` up to (and including) the flush after the loop, before
the month/minute disambiguation pass. -/
def timeScan (tokens : List FmtToken) (format : List Char) : TimeScanState :=
  let s := timeLoop format.length { tokens := tokens, rem := format }
  let fl := flush s.tokens s.other
  { s with tokens := fl.1, other := fl.2 }

/-- The month/minute disambiguation pass of Go `tokenizeTime`.  The Go code
mutates the token array in place while iterating; `acc` is the already
processed (possibly retagged) prefix and `rest` the untouched suffix, so
`firstNonTriv acc.reverse` is exactly Go's `prevTokenType(tokens, i)` on the
partially mutated array and `firstNonTriv rest` is `nextTokenType(tokens, i)`
on the untouched tail.  Also accumulates the `hasDate`/`hasTime` updates the
pass performs. -/
def resolveMonths (acc rest : List FmtToken) (hasDate hasTime : Bool) :
    List FmtToken × Bool × Bool :=
  match rest with
  | [] => (acc, hasDate, hasTime)
  | t :: rs =>
    if t.typ = .TokMonth then
      let pt := firstNonTriv acc.reverse
      let nt := firstNonTriv rs
      if pt = .TokHour ∨ pt = .TokTotalHours ∨ nt = .TokSecond ∨ nt = .TokTotalSeconds then
        resolveMonths (acc ++ [{ t with typ := .TokMinute }]) rs hasDate true
      else
        resolveMonths (acc ++ [t]) rs true hasTime
    else
      resolveMonths (acc ++ [t]) rs hasDate hasTime

/-- Go `tokenizeTime`: scan loop, final flush, month disambiguation and
sub-type classification. -/
def tokenizeTime (tokens : List FmtToken) (format : List Char) : Section × List Char :=
  let s := timeScan tokens format
  let r := resolveMonths [] s.tokens s.hasDate s.hasTime
  let subTyp : FormatSubType :=
    if s.hasTotal then .Duration
    else if r.2.1 ∧ r.2.2 then .DateTime
    else if r.2.1 then .Date
    else if r.2.2 then .Time
    else .NoSubType
  ({ typ := .TimeFormat, subTyp := subTyp, tokens := r.1 }, s.rem)

example : tokenizeTime [] ("h".toList)
    = ({ typ := .TimeFormat, subTyp := .Time, tokens := [{ typ := .TokHour, size := 1 }] }, []) := by
  decide

example : tokenizeTime [] ("h:mm am/pm".toList)
    = ({ typ := .TimeFormat, subTyp := .Time, tokens :=
          [{ typ := .TokHour, size := 1 }, { typ := .TokLiteral, data := [':'] },
           { typ := .TokMinute, size := 2 }, { typ := .TokLiteral, data := [' '] },
           { typ := .TokAMPM, size := 2, data := ['a'] }] }, []) := by decide

example : tokenizeTime [] ("yy-mm-dd".toList)
    = ({ typ := .TimeFormat, subTyp := .Date, tokens :=
          [{ typ := .TokYear, size := 2 }, { typ := .TokLiteral, data := ['-'] },
           { typ := .TokMonth, size := 2 }, { typ := .TokLiteral, data := ['-'] },
           { typ := .TokDay, size := 2 }] }, []) := by decide

example : tokenizeTime [] ("hh[xz]mm".toList)
    = ({ typ := .TimeFormat, subTyp := .Time, tokens :=
          [{ typ := .TokHour, size := 2 }, { typ := .TokLiteral, data := "[xz]".toList },
           { typ := .TokMinute, size := 2 }] }, []) := by decide

example : tokenizeTime [] ("[hh]:[mm]:[ss]".toList)
    = ({ typ := .TimeFormat, subTyp := .Duration, tokens :=
          [{ typ := .TokTotalHours, size := 2 }, { typ := .TokLiteral, data := [':'] },
           { typ := .TokTotalMinutes, size := 2 }, { typ := .TokLiteral, data := [':'] },
           { typ := .TokTotalSeconds, size := 2 }] }, []) := by decide

example : tokenizeTime [] ("\"skip;semi\" foo;bar".toList)
    = ({ typ := .TimeFormat, subTyp := .NoSubType, tokens :=
          [{ typ := .TokLiteral, data := "skip;semi foo".toList }] }, "bar".toList) := by decide

example : tokenizeTime [] ("h_^m*-".toList)
    = ({ typ := .TimeFormat, subTyp := .Time, tokens :=
          [{ typ := .TokHour, size := 1 }, { typ := .TokSpace, data := ['^'] },
           { typ := .TokMinute, size := 1 }, { typ := .TokRepeat, data := ['-'] }] }, []) := by
  decide

/-! ### Numeric sub-parser -/

/-- Replace the type of the token at `idx` (Go `tokens[idx].Type = …`). -/
def setTokType (tokens : List FmtToken) (idx : Nat) (tt : FmtTokenType) : List FmtToken :=
  tokens.set idx { tokens.getD idx {} with typ := tt }

/-- State threaded through the Go `tokenizeNumeric` loop (`seenInt` is declared
but never assigned in the source, so it is omitted). -/
structure NumTokState where
  tokens : List FmtToken := []
  other : List Char := []
  inFrac : Bool := false
  inDec : Bool := false
  rem : List Char := []
  deriving DecidableEq, Repr

/-- The `NLOOP` loop of Go `tokenizeNumeric`. -/
def numLoop (fuel : Nat) (s : NumTokState) : NumTokState :=
  match fuel with
  | 0 => s
  | fuel + 1 =>
    match s.rem with
    | [] => s
    | ch :: rest =>
      if ch = '0' ∨ ch = '?' ∨ ch = '#' then
        if s.inFrac then
          let rc := readChars (ch :: rest) ("0?#".toList)
          let fl := flush s.tokens s.other
          numLoop fuel { s with tokens := fl.1 ++ [{ typ := .TokNumFracDenom, data := rc.1 }],
                                other := fl.2, inFrac := false, rem := rc.2 }
        else if s.inDec then
          let rc := readChars (ch :: rest) ("0?#,".toList)
          let fl := flush s.tokens s.other
          numLoop fuel { s with tokens := fl.1 ++ [{ typ := .TokNumDec, data := rc.1 }],
                                other := fl.2, inDec := false, rem := rc.2 }
        else
          let rc := readChars (ch :: rest) ("0?#,".toList)
          let fl := flush s.tokens s.other
          numLoop fuel { s with tokens := fl.1 ++ [{ typ := .TokNumInt, data := rc.1 }],
                                other := fl.2, rem := rc.2 }
      else if ch = '.' then
        -- the Go source appends the token without flushing the literal buffer here
        numLoop fuel { s with tokens := s.tokens ++ [{ typ := .TokNumDecSign }],
                              inDec := true, rem := rest }
      else if ch = '/' then
        match LastTokenIdxByType s.tokens .TokNumInt with
        | some idx =>
          let fl := flush s.tokens s.other
          numLoop fuel { s with tokens := setTokType fl.1 idx .TokNumFracNum ++
                                  [{ typ := .TokNumFracSign }],
                                other := fl.2, inFrac := true, rem := rest }
        | none =>
          numLoop fuel { s with rem := rest }
      else if '1' ≤ ch ∧ ch ≤ '9' then
        if s.inFrac then
          let rc := readChars (ch :: rest) ("0123456789".toList)
          let fl := flush s.tokens s.other
          numLoop fuel { s with tokens := fl.1 ++ [{ typ := .TokNumFracDenom, data := rc.1 }],
                                other := fl.2, inFrac := false, rem := rc.2 }
        else
          let rc := readChars (ch :: rest) ("0123456789.,".toList)
          numLoop fuel { s with other := s.other ++ rc.1, rem := rc.2 }
      else if ch = '%' then
        let fl := flush s.tokens s.other
        numLoop fuel { s with tokens := fl.1 ++ [{ typ := .TokNumPct }],
                              other := fl.2, rem := rest }
      else if ch = 'E' ∨ ch = 'e' then
        let fl := flush s.tokens s.other
        let rc := readChars rest ("?#0+".toList)
        numLoop fuel { s with tokens := fl.1 ++ [{ typ := .TokNumExp, data := ch :: rc.1 }],
                              other := fl.2, rem := rc.2 }
      else if ch = ';' then
        let fl := flush s.tokens s.other
        { s with tokens := fl.1, other := fl.2, rem := rest }
      else
        let tc := tokenizeCommon s.tokens (ch :: rest) s.other
        numLoop fuel { s with tokens := tc.1, other := tc.2.2, rem := tc.2.1 }

/-- Go `tokenizeNumeric`. -/
def tokenizeNumeric (tokens : List FmtToken) (format : List Char) : Section × List Char :=
  let s := numLoop format.length { tokens := tokens, rem := format }
  ({ typ := .NumberFormat, tokens := (flush s.tokens s.other).1 }, s.rem)

example : tokenizeNumeric [] ("0.#".toList)
    = ({ typ := .NumberFormat, tokens :=
          [{ typ := .TokNumInt, data := ['0'] }, { typ := .TokNumDecSign },
           { typ := .TokNumDec, data := ['#'] }] }, []) := by decide

example : tokenizeNumeric [] ("#.##E+00".toList)
    = ({ typ := .NumberFormat, tokens :=
          [{ typ := .TokNumInt, data := ['#'] }, { typ := .TokNumDecSign },
           { typ := .TokNumDec, data := "##".toList },
           { typ := .TokNumExp, data := "E+00".toList }] }, []) := by decide

example : tokenizeNumeric [] ("#.## 000/000".toList)
    = ({ typ := .NumberFormat, tokens :=
          [{ typ := .TokNumInt, data := ['#'] }, { typ := .TokNumDecSign },
           { typ := .TokNumDec, data := "##".toList }, { typ := .TokLiteral, data := [' '] },
           { typ := .TokNumFracNum, data := "000".toList }, { typ := .TokNumFracSign },
           { typ := .TokNumFracDenom, data := "000".toList }] }, []) := by decide

example : tokenizeNumeric [] ("# #/16".toList)
    = ({ typ := .NumberFormat, tokens :=
          [{ typ := .TokNumInt, data := ['#'] }, { typ := .TokLiteral, data := [' '] },
           { typ := .TokNumFracNum, data := ['#'] }, { typ := .TokNumFracSign },
           { typ := .TokNumFracDenom, data := "16".toList }] }, []) := by decide

example : tokenizeNumeric [] ("foo 0.# bar".toList)
    = ({ typ := .NumberFormat, tokens :=
          [{ typ := .TokLiteral, data := "foo ".toList }, { typ := .TokNumInt, data := ['0'] },
           { typ := .TokNumDecSign }, { typ := .TokNumDec, data := ['#'] },
           { typ := .TokLiteral, data := " bar".toList }] }, []) := by decide

/-! ### Top-level format parser -/

/-- ASCII lower-casing as used by Go `strings.ToLower` on the format strings
involved (they are ASCII). -/
def lowerAscii (c : Char) : Char :=
  if 'A' ≤ c ∧ c ≤ 'Z' then Char.ofNat (c.toNat + 32) else c

/-- Go `isColor`. -/
def isColor (col : List Char) : Bool :=
  let c := col.map lowerAscii
  (c = "black".toList ∨ c = "green".toList ∨ c = "white".toList ∨ c = "blue".toList ∨
    c = "magenta".toList ∨ c = "yellow".toList ∨ c = "cyan".toList ∨ c = "red".toList) ∨
  ("color".toList).isPrefixOf c

/-- State threaded through the Go `ParseFormat` loop. -/
structure ParseState where
  sets : List Section := []
  tokens : List FmtToken := []
  other : List Char := []
  conditional : Bool := false
  rem : List Char := []
  deriving DecidableEq, Repr

/-- The main loop of Go `ParseFormat`. -/
def parseLoop (fuel : Nat) (s : ParseState) : ParseState :=
  match fuel with
  | 0 => s
  | fuel + 1 =>
    match s.rem with
    | [] => s
    | ch :: rest =>
      if ch = 'y' ∨ ch = 'm' ∨ ch = 'd' ∨ ch = 'h' ∨ ch = 's' then
        let fl := flush s.tokens s.other
        let tz := tokenizeTime fl.1 (ch :: rest)
        parseLoop fuel { s with sets := s.sets ++ [tz.1], tokens := [],
                                other := fl.2, rem := tz.2 }
      else if ch = '#' ∨ ch = '?' ∨ ch = '0' ∨ ch = '.' then
        let fl := flush s.tokens s.other
        let tz := tokenizeNumeric fl.1 (ch :: rest)
        parseLoop fuel { s with sets := s.sets ++ [tz.1], tokens := [],
                                other := fl.2, rem := tz.2 }
      else if ch = 'g' ∨ ch = 'G' then
        if ((ch :: rest).take 7).map lowerAscii = "general".toList then
          let fl := flush s.tokens s.other
          parseLoop fuel { s with tokens := fl.1 ++ [{ typ := .TokGeneral }],
                                  other := fl.2, rem := (ch :: rest).drop 7 }
        else
          parseLoop fuel { s with other := s.other ++ [ch], rem := rest }
      else if ch = '[' then
        let rt := readToChar rest ']'
        if rt.1.isEmpty then
          parseLoop fuel { s with rem := rt.2 }
        else if isColor rt.1 then
          let fl := flush s.tokens s.other
          parseLoop fuel { s with tokens := fl.1 ++ [{ typ := .TokColor, data := rt.1 }],
                                  other := fl.2, rem := rt.2 }
        else if rt.1.headD ' ' = 'h' ∨ rt.1.headD ' ' = 'm' ∨ rt.1.headD ' ' = 's' then
          let fl := flush s.tokens s.other
          let tz := tokenizeTime fl.1 (ch :: rest)
          parseLoop fuel { s with sets := s.sets ++ [tz.1], tokens := [],
                                  other := fl.2, rem := tz.2 }
        else if rt.1.headD ' ' = '<' ∨ rt.1.headD ' ' = '>' ∨ rt.1.headD ' ' = '=' then
          let fl := flush s.tokens s.other
          parseLoop fuel { s with tokens := fl.1 ++ [{ typ := .TokCondition, data := rt.1 }],
                                  other := fl.2, conditional := true, rem := rt.2 }
        else
          parseLoop fuel { s with rem := rt.2 }
      else if ch = ';' then
        let fl := flush s.tokens s.other
        parseLoop fuel { s with sets := s.sets ++ [{ typ := .TextFormat, tokens := fl.1 }],
                                tokens := [], other := fl.2, rem := rest }
      else if ch = '@' then
        let fl := flush s.tokens s.other
        parseLoop fuel { s with tokens := fl.1 ++ [{ typ := .TokCellText }],
                                other := fl.2, rem := rest }
      else
        let tc := tokenizeCommon s.tokens (ch :: rest) s.other
        parseLoop fuel { s with tokens := tc.1, other := tc.2.2, rem := tc.2.1 }

/-- Go `ParseFormat`. -/
def ParseFormat (format : List Char) : CellFormat :=
  let s := parseLoop format.length { rem := format }
  let tokens' := (flush s.tokens s.other).1
  let sets := if tokens'.length > 0 then s.sets ++ [{ typ := .TextFormat, tokens := tokens' }]
              else s.sets
  { sections := sets, isConditional := s.conditional }

example : ParseFormat ("foo".toList)
    = { sections := [{ typ := .TextFormat, tokens := [{ typ := .TokLiteral, data := "foo".toList }] }] } := by
  decide

example : ParseFormat ("[h]".toList)
    = { sections := [{ typ := .TimeFormat, subTyp := .Duration,
                       tokens := [{ typ := .TokTotalHours, size := 1 }] }] } := by decide

example : ParseFormat ("hh:[z".toList)
    = { sections := [{ typ := .TimeFormat, subTyp := .Time,
                       tokens := [{ typ := .TokHour, size := 2 },
                                  { typ := .TokLiteral, data := ":[z".toList }] }] } := by decide

example : ParseFormat ("[red][h]".toList)
    = { sections := [{ typ := .TimeFormat, subTyp := .Duration,
                       tokens := [{ typ := .TokColor, data := "red".toList },
                                  { typ := .TokTotalHours, size := 1 }] }] } := by decide

example : ParseFormat ("[=50][h]".toList)
    = { sections := [{ typ := .TimeFormat, subTyp := .Duration,
                       tokens := [{ typ := .TokCondition, data := "=50".toList },
                                  { typ := .TokTotalHours, size := 1 }] }],
        isConditional := true } := by decide

example : ParseFormat ("[h];\"m;s\";;text".toList)
    = { sections :=
          [{ typ := .TimeFormat, subTyp := .Duration, tokens := [{ typ := .TokTotalHours, size := 1 }] },
           { typ := .TextFormat, tokens := [{ typ := .TokLiteral, data := "m;s".toList }] },
           { typ := .TextFormat },
           { typ := .TextFormat, tokens := [{ typ := .TokLiteral, data := "text".toList }] }] } := by
  decide

example : ParseFormat ("[h];m;s;text".toList)
    = { sections :=
          [{ typ := .TimeFormat, subTyp := .Duration, tokens := [{ typ := .TokTotalHours, size := 1 }] },
           { typ := .TimeFormat, subTyp := .Date, tokens := [{ typ := .TokMonth, size := 1 }] },
           { typ := .TimeFormat, subTyp := .Time, tokens := [{ typ := .TokSecond, size := 1 }] },
           { typ := .TextFormat, tokens := [{ typ := .TokLiteral, data := "text".toList }] }] } := by
  decide

example : ParseFormat ("$general\"foo".toList)
    = { sections := [{ typ := .TextFormat, tokens :=
          [{ typ := .TokLiteral, data := ['$'] }, { typ := .TokGeneral },
           { typ := .TokLiteral, data := "foo".toList }] }] } := by decide

example : ParseFormat ("gz".toList)
    = { sections := [{ typ := .TextFormat, tokens := [{ typ := .TokLiteral, data := "gz".toList }] }] } := by
  decide

/-! ### Numeric helpers -/

/-- Go `int64(f)` float-to-integer conversion: truncation toward zero. -/
def ftrunc (q : ℚ) : ℤ :=
  if q.num ≥ 0 then ((q.num.natAbs / q.den : ℕ) : ℤ) else -((q.num.natAbs / q.den : ℕ) : ℤ)

/-- Go `int64` division: truncation toward zero.  Division by zero panics in
Go; on the reachable paths of this development the divisor is non-zero. -/
def tdivZ (a b : ℤ) : ℤ := Int.tdiv a b

/-- Round half away from zero, the rounding `strconv.FormatFloat(…, 'f'/'E', p, 64)`
exhibits on the decimal values involved (the spec calls it "printf-f rounding"). -/
def roundHalfAway (q : ℚ) : ℤ := if q ≥ 0 then ⌊q + 1 / 2⌋ else -⌊-q + 1 / 2⌋

/-- Decimal digits of a natural number. -/
def natToDigits (n : ℕ) : List Char := Nat.toDigits 10 n

/-- Go `strconv.AppendInt(…, val, 10)`. -/
def intToDigits (n : ℤ) : List Char :=
  if n < 0 then '-' :: natToDigits n.natAbs else natToDigits n.natAbs

/-- Value of a run of decimal digit characters (Go `strconv.ParseInt` on the
digit runs produced by the tokenizer). -/
def digitsToNat (s : List Char) : ℕ :=
  s.foldl (fun a c => a * 10 + (c.toNat - '0'.toNat)) 0

/-- Left-pad with `'0'` to the given width. -/
def padLeftZeros (w : ℕ) (s : List Char) : List Char :=
  List.replicate (w - s.length) '0' ++ s

/-- Helper for `stripTrailingComma`, working on the reversed pattern. -/
def stripCommaRev (v : ℚ) : List Char → ℚ × List Char
  | ',' :: rest => stripCommaRev (v / 1000) rest
  | rest => (v, rest)

/-- Go `stripTrailingComma`: strips trailing commas from the pattern and
divides the value by 1000 for each one (the Go version mutates `v` through a
pointer; modelled by returning the new value). -/
def stripTrailingComma (v : ℚ) (fmtStr : List Char) : ℚ × List Char :=
  ((stripCommaRev v fmtStr.reverse).1, (stripCommaRev v fmtStr.reverse).2.reverse)

/-- Go `padint`.  The source pads from a string literal of exactly 19 zero
characters, slicing it with `[:size-lv]`; when `size - lv > 19` that slice is
out of range and Go panics, modelled as `none`. -/
def padint (size : Nat) (val : ℤ) : Option (List Char) :=
  let v := intToDigits val
  if v.length < size then
    if size - v.length ≤ 19 then some (List.replicate (size - v.length) '0' ++ v)
    else none
  else some v

/-- Helper for `fmtThou` on the reversed digit string: inserts a comma after
every three characters. -/
def fmtThouRev : List Char → List Char
  | a :: b :: c :: d :: rest => a :: b :: c :: ',' :: fmtThouRev (d :: rest)
  | l => l

/-- Go `fmtThou`: thousands grouping, a comma every three digits from the
right (the Go version builds the result in a byte buffer; this recursion
produces the same string). -/
def fmtThou (intval : List Char) : List Char :=
  (fmtThouRev intval.reverse).reverse

example : fmtThou ("1234567".toList) = "1,234,567".toList := by decide
example : fmtThou ("123".toList) = "123".toList := by decide
example : fmtThou ([]) = [] := by decide

/-- Go `formatInteger`: pads `intval` on the left according to the first
`len(intfmt) - len(intval)` pattern characters (`0` → `'0'`, `?` → `' '`,
anything else → nothing); `sigonly` records that no `0`/`?` pad was seen. -/
def formatInteger (intfmt intval : List Char) : List Char × Bool :=
  let pads := intfmt.take (intfmt.length - intval.length)
  let (pre, sigonly) := pads.foldl
    (fun (acc : List Char × Bool) ch =>
      if ch = '0' then (acc.1 ++ ['0'], false)
      else if ch = '?' then (acc.1 ++ [' '], false)
      else acc)
    ([], true)
  (pre ++ intval, sigonly)

/-- Go `fmtSig`: same padding as `formatInteger` with the result components
in the opposite order. -/
def fmtSig (intval ifmt : List Char) : Bool × List Char :=
  let pads := ifmt.take (ifmt.length - intval.length)
  let (pre, sigonly) := pads.foldl
    (fun (acc : List Char × Bool) ch =>
      if ch = '0' then (acc.1 ++ ['0'], false)
      else if ch = '?' then (acc.1 ++ [' '], false)
      else acc)
    ([], true)
  (sigonly, pre ++ intval)

/-- Go `formatDecimal`: pads `decval` on the right according to the pattern
characters from position `len(decval)` onward. -/
def formatDecimal (decfmt decval : List Char) : List Char :=
  decval ++ (decfmt.drop decval.length).filterMap
    (fun ch => if ch = '0' then some '0' else if ch = '?' then some ' ' else none)

/-- `x * 10^e` for an integer exponent. -/
def mulPow10 (x : ℚ) (e : ℤ) : ℚ :=
  if e ≥ 0 then x * 10 ^ e.toNat else x / 10 ^ (-e).toNat

/-- Least `k' ≥ k` with `x * 10^k' ≥ 1` (for `0 < x < 1`); the fuel passed by
the caller always suffices. -/
def smallExp (fuel : Nat) (x : ℚ) (k : Nat) : Nat :=
  match fuel with
  | 0 => k
  | fuel + 1 => if x * 10 ^ k ≥ 1 then k else smallExp fuel x (k + 1)

/-- `strconv.FormatFloat(v, 'f', p, 64)` modelled over exact rationals:
fixed-point with `p` fractional digits, half-away-from-zero rounding. -/
def ffixed (v : ℚ) (p : ℕ) : List Char :=
  let r := roundHalfAway (v * 10 ^ p)
  let sign : List Char := if r < 0 then ['-'] else []
  let a := r.natAbs
  if p = 0 then sign ++ natToDigits a
  else sign ++ natToDigits (a / 10 ^ p) ++ ['.'] ++ padLeftZeros p (natToDigits (a % 10 ^ p))

/-- `strconv.FormatFloat(v, 'E', p, 64)` modelled over exact rationals:
`d.dddE±dd` with `p` mantissa digits after the point and a two-digit
exponent. -/
def fsci (v : ℚ) (p : ℕ) : List Char :=
  if v = 0 then
    (if p = 0 then ['0'] else '0' :: '.' :: List.replicate p '0') ++ "E+00".toList
  else
    let sign : List Char := if v < 0 then ['-'] else []
    let x := |v|
    let e : ℤ :=
      if x ≥ 1 then ((natToDigits ⌊x⌋.toNat).length : ℤ) - 1
      else -(smallExp ((natToDigits x.den).length + 1) x 1 : ℤ)
    let m0 := roundHalfAway (mulPow10 x (-e) * 10 ^ p)
    let me : ℤ × ℤ := if m0 ≥ 10 ^ (p + 1) then ((10 : ℤ) ^ p, e + 1) else (m0, e)
    let digs := natToDigits me.1.natAbs
    let mant := if p = 0 then digs else digs.take 1 ++ ['.'] ++ digs.drop 1
    let esign : Char := if me.2 ≥ 0 then '+' else '-'
    sign ++ mant ++ ['E', esign] ++ padLeftZeros 2 (natToDigits me.2.natAbs)

/-- Go `splitNum`. -/
def splitNum (v : ℚ) (expPrec : ℤ) (decPrec : ℕ) : List Char × List Char × List Char :=
  let s0 := if expPrec ≥ 0 then fsci v decPrec else ffixed v decPrec
  let se : List Char × List Char :=
    if expPrec ≥ 0 then
      match s0.findIdx? (· = 'E') with
      | some idx => (s0.take idx, s0.drop idx)
      | none => (s0, [])
    else (s0, [])
  let s := se.1
  let expval := se.2
  if decPrec > 0 then
    match s.findIdx? (· = '.') with
    | some idx =>
      (s.take idx, ((s.drop (idx + 1)).reverse.dropWhile (· = '0')).reverse, expval)
    | none => (s, [], expval)
  else (s, [], expval)

example : splitNum (mkRat 123456 100) (-1) 0 = ("1235".toList, [], []) := by decide
example : splitNum (mkRat 12 10) (-1) 2 = (['1'], ['2'], []) := by decide
example : splitNum (12345678 : ℚ) 0 2 = (['1'], "23".toList, "E+07".toList) := by decide
example : splitNum (0 : ℚ) 0 0 = (['0'], [], "E+00".toList) := by decide

/-! ### Rational approximation (Go `frap`) -/

/-- The main loop of Go `frap` (the continued-fraction walk on the 2×2 matrix
`m`).  Fuel-based: the denominator of `x` strictly decreases on every
recursive call (the call happens only when `x` is not an integer, and then
`1/(x - trunc x)` has a strictly smaller denominator), so the caller's fuel
of `x.den + 1` is never exhausted.  The Go overflow guard
`x > math.MaxFloat64` cannot trigger over exact rationals: the exact test
`x == float64(ai)` already stops the walk before a division by zero. -/
def frapLoop (fuel : Nat) (maxDenom : ℤ) (m00 m01 m10 m11 : ℤ) (x : ℚ) : ℤ × ℤ × ℤ × ℤ :=
  match fuel with
  | 0 => (m00, m01, m10, m11)
  | fuel + 1 =>
    let ai := ftrunc x
    if m10 * ai + m11 < maxDenom then
      let n00 := m00 * ai + m01
      let n01 := m00
      let n10 := m10 * ai + m11
      let n11 := m10
      if x = (ai : ℚ) then (n00, n01, n10, n11)
      else frapLoop fuel maxDenom n00 n01 n10 n11 (1 / (x - (ai : ℚ)))
    else (m00, m01, m10, m11)

/-- Go `frap`.  Note two faithful oddities of the source: `err1` divides by
`m[1][1]` (not `m[1][0]`), and the final comparison `err1 < err2` is on the
signed errors.  The Go `ai = (maxDenom - m[1][1]) / m[1][0]` is an `int64`
division that panics when `m[1][0] = 0` (only possible for `maxDenom ≤ 1`,
which no source call site produces); `tdivZ` returns 0 there instead. -/
def frap (n : ℚ) (maxDenom : ℤ) : ℤ × ℤ :=
  let m := frapLoop (n.den + 1) maxDenom 1 0 0 1 n
  let f00 := m.1
  let f01 := m.2.1
  let f10 := m.2.2.1
  let f11 := m.2.2.2
  let num := f00
  let denom := f10
  let err1 := n - ((f00 : ℚ) / (f11 : ℚ))
  if err1 = 0 then (num, denom)
  else
    let ai := tdivZ (maxDenom - f11) f10
    let g00 := f00 * ai + f01
    let g10 := f10 * ai + f11
    let err2 := n - ((g00 : ℚ) / (g10 : ℚ))
    if err1 < err2 then (num, denom) else (g00, g10)

example : frap (mkRat 3 4) 9 = (3, 4) := by decide
example : frap (mkRat 1 4) 99 = (1, 4) := by decide

/-! ### Number rendering (Go `formatNumber`) -/

/-- The scan-pass state of Go `formatNumber` (the dead counters `c` and
`commaCount` of the source are omitted: `commaCount` is never read). -/
structure NumFmtState where
  v : ℚ
  intFmt : List Char := []
  decFmt : List Char := []
  expPrec : ℤ := -1
  decPrec : ℕ := 0
  hasComma : Bool := false
  hasInt : Bool := false
  hasExp : Bool := false
  fracDenomFmt : List Char := []
  deriving DecidableEq, Repr

/-- One step of the scan pass of Go `formatNumber`. -/
def numScanTok (st : NumFmtState) (token : FmtToken) : NumFmtState :=
  match token.typ with
  | .TokNumPct => { st with v := st.v * 100 }
  | .TokNumInt =>
    let vd := stripTrailingComma st.v token.data
    { st with v := vd.1, hasInt := true,
              hasComma := st.hasComma || vd.2.contains ',',
              intFmt := vd.2.filter (· ≠ ',') }
  | .TokNumDec =>
    let vd := stripTrailingComma st.v token.data
    { st with v := vd.1,
              decFmt := vd.2.filter (fun ch => ch = '#' ∨ ch = '0' ∨ ch = '?' ∨ ch = '.'),
              decPrec := st.decPrec +
                (vd.2.filter (fun ch => ch = '#' ∨ ch = '0' ∨ ch = '?')).length }
  | .TokNumFracSign => { st with decPrec := 1 }
  | .TokNumFracDenom => { st with fracDenomFmt := token.data }
  | .TokNumExp => { st with hasExp := true, expPrec := (token.size : ℤ) }
  | _ => st

/-- The scan pass of Go `formatNumber`. -/
def numScan (tokens : List FmtToken) (v : ℚ) : NumFmtState :=
  tokens.foldl numScanTok { v := v }

/-- The fraction pre-computation of Go `formatNumber`: fixed denominators are
parsed as integers (the data is a digit run by construction) and the
numerator rounded; placeholder denominators go through `frap` bounded by
`10^len - 1`.  `math.Modf` keeps the sign of the fractional part. -/
def fracParts (st : NumFmtState) : ℤ × ℤ :=
  if st.fracDenomFmt.isEmpty then (0, 0)
  else
    let f := if st.hasInt then st.v - (ftrunc st.v : ℚ) else st.v
    let ch := st.fracDenomFmt.headD ' '
    if '1' ≤ ch ∧ ch ≤ '9' then
      let d : ℤ := (digitsToNat st.fracDenomFmt : ℤ)
      (⌊(d : ℚ) * f + 1 / 2⌋, d)
    else
      frap |f| (10 ^ st.fracDenomFmt.length - 1)

/-- One step of the emit pass of Go `formatNumber`.  The accumulator carries
the output pieces and the (mutated) `intval` variable of the source; `decval`
and `expval` are read-only in the source loop. -/
def numEmitTok (sc : NumFmtState) (fracNum fracDenom : ℤ) (decval expval : List Char)
    (acc : List (List Char) × List Char) (token : FmtToken) :
    List (List Char) × List Char :=
  let out := acc.1
  let intval := acc.2
  match token.typ with
  | .TokNumInt =>
    let intval := if intval = ['0'] ∧ ¬sc.hasExp then [] else intval
    let ivs := formatInteger sc.intFmt intval
    let out :=
      if ¬(ivs.2 ∧ ivs.1 = ['0'] ∧ ¬sc.hasExp) then
        out ++ [if sc.hasComma then fmtThou ivs.1 else ivs.1]
      else out
    (out, intval)
  | .TokNumDecSign => (out ++ [['.']], intval)
  | .TokNumDec => (out ++ [formatDecimal sc.decFmt decval], intval)
  | .TokNumExp =>
    let iv0 := (expval.drop 2).dropWhile (· = '0')
    let iv := if iv0.isEmpty then ['0'] else iv0
    let ev := formatInteger (token.data.drop 2) iv
    (out ++ ["E+".toList, ev.1], intval)
  | .TokNumFracSign => (out ++ [['/']], intval)
  | .TokNumFracNum =>
    (out ++ [(fmtSig (intToDigits fracNum) token.data).2], intval)
  | .TokNumFracDenom =>
    (out ++ [(fmtSig (intToDigits fracDenom) token.data).2], intval)
  | .TokNumPct => (out ++ [['%']], intval)
  | .TokLiteral => (out ++ [token.data], intval)
  | _ => (out, intval)

/-- Go `formatNumber`. -/
def formatNumber (tokens : List FmtToken) (v : ℚ) : List Char :=
  let sc := numScan tokens v
  let fr := fracParts sc
  let ide := splitNum sc.v sc.expPrec sc.decPrec
  let res := tokens.foldl (numEmitTok sc fr.1 fr.2 ide.2.1 ide.2.2) ([], ide.1)
  res.1.flatten

/-- Rendering with the token list of a parsed numeric pattern, for the
sanity checks below. -/
def fmtNum (pat : String) (v : ℚ) : List Char :=
  formatNumber ((tokenizeNumeric [] pat.toList).1.tokens) v

example : fmtNum "#" (mkRat 123456 100) = "1235".toList := by decide
example : fmtNum "#,###" (mkRat 123456 100) = "1,235".toList := by decide
example : fmtNum "#," (mkRat 12345678 100) = "123".toList := by decide
example : fmtNum "#,,"  (12345678 : ℚ) = "12".toList := by decide
example : fmtNum "#,###" (12345678 : ℚ) = "12,345,678".toList := by decide
example : fmtNum "0000" (12 : ℚ) = "0012".toList := by decide
example : fmtNum "#.#" (mkRat 126 100) = "1.3".toList := by decide
example : fmtNum "#.00" (mkRat 12 10) = "1.20".toList := by decide
example : fmtNum "?#.#0" (mkRat 12 10) = " 1.20".toList := by decide
example : fmtNum "#.#?" (mkRat 12 10) = "1.2 ".toList := by decide
example : fmtNum "#" (0 : ℚ) = [] := by decide
example : fmtNum "#.#" (0 : ℚ) = ['.'] := by decide
example : fmtNum "#.0" (0 : ℚ) = ".0".toList := by decide
example : fmtNum "0.0" (0 : ℚ) = "0.0".toList := by decide
example : fmtNum "#,###.#0," (mkRat 1234567898 100) = "12,345.68".toList := by decide
example : fmtNum "#%" (12 : ℚ) = "1200%".toList := by decide
example : fmtNum "0.####%" (mkRat 2345 10000) = "23.45%".toList := by decide
example : fmtNum "#E+000" (12345678 : ℚ) = "1E+007".toList := by decide
example : fmtNum "#E+#" (0 : ℚ) = "0E+0".toList := by decide
example : fmtNum "#E+00" (12345678 : ℚ) = "1E+07".toList := by decide
example : fmtNum "#.##E+00" (12345678 : ℚ) = "1.23E+07".toList := by decide
example : fmtNum "#.###E+00" (12345678 : ℚ) = "1.235E+07".toList := by decide
example : fmtNum "#/#" (mkRat 3 4) = "3/4".toList := by decide
example : fmtNum "#/###" (mkRat 3 4) = "3/4".toList := by decide
example : fmtNum "#/00#" (mkRat 3 4) = "3/004".toList := by decide
example : fmtNum "0#/00#" (mkRat 3 4) = "03/004".toList := by decide
example : fmtNum "# #/#" (mkRat 495 4) = "123 3/4".toList := by decide
example : fmtNum "#/16" (mkRat 1 4) = "4/16".toList := by decide
example : fmtNum "#/$16" (mkRat 1 4) = "4/$16".toList := by decide

/-! ### Calendar bridge

The functions `DurationFromExcelTime` and `TimeFromExcelTime` belong to this
repository but are not among the provided source files, so they are modelled
from the spec (§4.2). -/

/-- Modelled from the spec: `duration_from_serial(serial) → elapsed time equal
to serial days` (source `DurationFromExcelTime`, not under src/).  The result
is in nanoseconds (Go `time.Duration`); the float-to-duration conversion
truncates toward zero. -/
def DurationFromExcelTime (v : ℚ) : ℤ :=
  ftrunc (v * 86400000000000)

/-- Modelled from the spec: `time_from_serial(serial, use_1904_epoch) →
timestamp in UTC` (source `TimeFromExcelTime`, not under src/).  Day 1 is
1900-01-01 resp. 1904-01-01; the historical 1900 leap-year bug is preserved
by shifting serials ≥ 61 back one day.  The timestamp is modelled as
nanoseconds since 1899-12-31T00:00 UTC in the proleptic Gregorian calendar. -/
def TimeFromExcelTime (v : ℚ) (date1904 : Bool) : ℤ :=
  let n := ftrunc (v * 86400000000000)
  let days := Int.fdiv n 86400000000000
  let tod := n - days * 86400000000000
  let adjDays := if date1904 then days + 1460 else if days ≥ 61 then days - 1 else days
  adjDays * 86400000000000 + tod

/-- Civil date from a day count relative to 1899-12-31 (standard
days-to-Gregorian conversion): `(year, month 1..12, day 1..31)`. -/
def civilFromDays (cd : ℤ) : ℤ × ℕ × ℕ :=
  let z := cd - 25568 + 719468
  let era := Int.fdiv z 146097
  let doe := (z - era * 146097).toNat
  let yoe := (doe - doe / 1460 + doe / 36524 - doe / 146096) / 365
  let y : ℤ := (yoe : ℤ) + era * 400
  let doy := doe - (365 * yoe + yoe / 4 - yoe / 100)
  let mp := (5 * doy + 2) / 153
  let d := doy - (153 * mp + 2) / 5 + 1
  let m := if mp < 10 then mp + 3 else mp - 9
  (if m ≤ 2 then y + 1 else y, m, d)

example : civilFromDays 0 = (1899, 12, 31) := by decide
example : civilFromDays 1 = (1900, 1, 1) := by decide
example : civilFromDays 60 = (1900, 3, 1) := by decide
example : civilFromDays 42098 = (2015, 4, 5) := by decide
example : civilFromDays (1461 + 0) = (1904, 1, 1) := by decide

/-- Go `Time.Round`: round to the nearest multiple of `res`, half away from
zero. -/
def roundAway (n res : ℤ) : ℤ :=
  let q := Int.fdiv n res
  let r := n - q * res
  if 2 * r > res then (q + 1) * res
  else if 2 * r < res then q * res
  else if n ≥ 0 then (q + 1) * res else q * res

def monthNames : List (List Char) :=
  ["January".toList, "February".toList, "March".toList, "April".toList, "May".toList,
   "June".toList, "July".toList, "August".toList, "September".toList, "October".toList,
   "November".toList, "December".toList]

def dayNames : List (List Char) :=
  ["Sunday".toList, "Monday".toList, "Tuesday".toList, "Wednesday".toList,
   "Thursday".toList, "Friday".toList, "Saturday".toList]

/-! ### Time rendering (Go `formatTime`) -/

/-- The date/time fields consumed by the emit loop of Go `formatTime`. -/
structure TimeCtx where
  yy : ℤ := 0
  mm : ℕ := 1
  dd : ℕ := 1
  wd : ℕ := 0
  hour : ℕ := 0
  minute : ℕ := 0
  sec : ℕ := 0
  frac : ℕ := 0
  ampm : Bool := false
  d : ℤ := 0
  deriving DecidableEq, Repr

def pad2 (n : ℕ) : List Char := padLeftZeros 2 (natToDigits n)

/-- One step of the emit loop of Go `formatTime`.  The accumulator carries
the output and the variable `f`; the source appends `f` after the switch for
every token, so token kinds missing from the switch re-emit the stale value
of `f`.  `none` models the `padint` panic propagating out. -/
def timeEmitTok (ctx : TimeCtx) (acc : Option (List Char × List Char)) (token : FmtToken) :
    Option (List Char × List Char) :=
  match acc with
  | none => none
  | some (out, f) =>
    let monthName := monthNames.getD (ctx.mm - 1) []
    let dayName := dayNames.getD ctx.wd []
    let hour12 := (ctx.hour + 11) % 12 + 1
    let f' : Option (List Char) :=
      match token.typ with
      | .TokYear =>
        some (if token.size > 2 then padLeftZeros 4 (natToDigits ctx.yy.toNat)
              else pad2 (ctx.yy.toNat % 100))
      | .TokMonth =>
        some (if token.size = 1 then natToDigits ctx.mm
              else if token.size = 2 then pad2 ctx.mm
              else if token.size = 3 then monthName.take 3
              else if token.size = 5 then monthName.take 1
              else monthName)
      | .TokDay =>
        some (if token.size = 1 then natToDigits ctx.dd
              else if token.size = 2 then pad2 ctx.dd
              else if token.size = 3 then dayName.take 3
              else dayName)
      | .TokHour =>
        some (if token.size = 1 then
                (if ctx.ampm then natToDigits hour12 else pad2 ctx.hour)
              else
                (if ctx.ampm then pad2 hour12 else pad2 ctx.hour))
      | .TokAMPM =>
        let base : List Char := if ctx.hour < 12 then "AM".toList else "PM".toList
        let base := if token.size = 1 then base.take 1 else base
        some (if token.data = ['a'] then base.map lowerAscii else base)
      | .TokMinute =>
        some (if token.size = 1 then natToDigits ctx.minute else pad2 ctx.minute)
      | .TokSecond =>
        some (if token.size = 1 then natToDigits ctx.sec else pad2 ctx.sec)
      | .TokSecFraction =>
        some (padLeftZeros token.size (natToDigits (ctx.frac * 10 ^ token.size / 1000000000)))
      | .TokTotalHours => padint token.size (tdivZ ctx.d 3600000000000)
      | .TokTotalMinutes => padint token.size (tdivZ ctx.d 60000000000)
      | .TokTotalSeconds => padint token.size (tdivZ ctx.d 1000000000)
      | .TokLiteral => some token.data
      | _ => some f
    f'.map fun g => (out ++ g, g)

/-- Go `formatTime`: returns the rendered string, the rounded timestamp and
the duration; `none` models the `padint` panic. -/
def formatTime (tokens : List FmtToken) (v : ℚ) (date1904 : Bool) :
    Option (List Char × ℤ × ℤ) :=
  let d := DurationFromExcelTime v
  let t0 := TimeFromExcelTime v date1904
  let ampm := tokens.any (fun t => t.typ = .TokAMPM)
  let res := tokens.foldl
    (fun r (t : FmtToken) =>
      if t.typ = .TokSecFraction then tdivZ 1000000000 (10 ^ t.size) else r)
    1000000000
  let t := if res ≤ 0 then t0 else roundAway t0 res
  let cd := Int.fdiv t 86400000000000
  let tod := (t - cd * 86400000000000).toNat
  let ymd := civilFromDays cd
  let ctx : TimeCtx :=
    { yy := ymd.1, mm := ymd.2.1, dd := ymd.2.2,
      wd := ((cd - 25568 + 4) % 7).toNat,
      hour := tod / 3600000000000,
      minute := tod / 60000000000 % 60,
      sec := tod / 1000000000 % 60,
      frac := tod % 1000000000,
      ampm := ampm, d := d }
  (tokens.foldl (timeEmitTok ctx) (some ([], []))).map fun of => (of.1, t, d)

/-! ### Text rendering and the renderer dispatch -/

/-- Least `k' ≥ k` with `x·10^k'` integral, within fuel. -/
def fracTermExp (fuel : Nat) (x : ℚ) (k : Nat) : Option Nat :=
  match fuel with
  | 0 => none
  | fuel + 1 => if (x * 10 ^ k).den = 1 then some k else fracTermExp fuel x (k + 1)

/-- Go `strconv.FormatFloat(fv, 'f', -1, 64)`: the shortest fixed-point
decimal.  Every value produced by `parseFloat` is of the form `m/10^k`, so
its decimal expansion terminates and is printed exactly; for other rationals
(unreachable here) 340 fractional digits are attempted and then a fixed
17-digit rendering is used as fallback. -/
def formatFloatShortest (v : ℚ) : List Char :=
  let sign : List Char := if v < 0 then ['-'] else []
  let x := |v|
  match fracTermExp 340 x 0 with
  | some 0 => sign ++ natToDigits (x.num.toNat)
  | some k =>
    let scaled := (x * 10 ^ k).num.toNat
    sign ++ natToDigits (scaled / 10 ^ k) ++ ['.'] ++ padLeftZeros k (natToDigits (scaled % 10 ^ k))
  | none => ffixed v 17

example : formatFloatShortest (mkRat (-12) 10) = "-1.2".toList := by decide
example : formatFloatShortest (mkRat 379477500001 10000000) = "37947.7500001".toList := by decide

/-- Go `formatText`. -/
def formatText (tokens : List FmtToken) (sv : List Char) (fv : ℚ) : List Char :=
  tokens.foldl
    (fun out (token : FmtToken) =>
      match token.typ with
      | .TokCellText => out ++ sv
      | .TokGeneral => out ++ formatFloatShortest fv
      | .TokLiteral => out ++ token.data
      | _ => out)
    []

/-- The typed value of Go `FormattedValue.GoValue` (an `interface{}` holding
a string, float, bool, timestamp or duration). -/
inductive GoValue
  | str (s : List Char)
  | num (v : ℚ)
  | boolean (b : Bool)
  | time (t : ℤ)
  | dur (d : ℤ)
  deriving DecidableEq, Repr

/-- Go `FormattedValue` (field `Section` renamed `sect`). -/
structure FormattedValue where
  goValue : GoValue := .str []
  formattedValue : List Char := []
  sect : Section := {}
  deriving DecidableEq, Repr

/-- The error results of `FormatValue` (§7 of the spec): the number-parse
error, the `UnsupportedCondition` error, and `internal` for Go panics. -/
inductive FmtErr
  | parseNumber
  | unsupportedCondition
  | internal
  deriving DecidableEq, Repr

/-- Go `formatValue` (the renderer dispatch).  The caller stores the initial
`GoValue` (`v0`) before calling; the `TimeFormat` branch overrides it, the
other branches keep it.  Unknown section types panic in Go (`none`). -/
def formatValue (v0 : GoValue) (s : Section) (sv : List Char) (fv : ℚ) (date1904 : Bool) :
    Option FormattedValue :=
  match s.typ with
  | .TimeFormat =>
    (formatTime s.tokens fv date1904).map fun ftd =>
      { goValue := if s.subTyp = .Duration then .dur ftd.2.2 else .time ftd.2.1,
        formattedValue := ftd.1, sect := s }
  | .NumberFormat =>
    some { goValue := v0, formattedValue := formatNumber s.tokens fv, sect := s }
  | .TextFormat =>
    some { goValue := v0, formattedValue := formatText s.tokens sv fv, sect := s }
  | _ => none

/-- Go `strconv.ParseFloat(s, 64)` restricted to the plain decimal forms a
spreadsheet cell carries (optional sign, digits with optional fraction,
optional decimal exponent; "Inf"/"NaN"/hex floats/underscores are omitted). -/
def parseFloat (s : List Char) : Option ℚ :=
  let sgn : ℚ × List Char :=
    match s with
    | '+' :: t => (1, t)
    | '-' :: t => (-1, t)
    | t => (1, t)
  let ipr := readChars sgn.2 ("0123456789".toList)
  let fpr : List Char × List Char :=
    match ipr.2 with
    | '.' :: t => readChars t ("0123456789".toList)
    | t => ([], t)
  if ipr.1.isEmpty ∧ fpr.1.isEmpty then none
  else
    let mant : ℚ := (digitsToNat ipr.1 : ℚ) + (digitsToNat fpr.1 : ℚ) / 10 ^ fpr.1.length
    match fpr.2 with
    | [] => some (sgn.1 * mant)
    | e :: t =>
      if e = 'e' ∨ e = 'E' then
        let es : Bool × List Char :=
          match t with
          | '+' :: t1 => (false, t1)
          | '-' :: t1 => (true, t1)
          | t1 => (false, t1)
        let edr := readChars es.2 ("0123456789".toList)
        if edr.1.isEmpty ∨ ¬edr.2.isEmpty then none
        else some (sgn.1 * mulPow10 mant
          (if es.1 then -(digitsToNat edr.1 : ℤ) else (digitsToNat edr.1 : ℤ)))
      else none

example : parseFloat ("-1.2".toList) = some (mkRat (-12) 10) := by decide
example : parseFloat ("42099.625".toList) = some (mkRat 42099625 1000) := by decide
example : parseFloat ("1e2".toList) = some 100 := by decide
example : parseFloat ("foo".toList) = none := by decide
example : parseFloat ("".toList) = none := by decide

deriving instance DecidableEq for Except

/-- The Go pattern `err := formatValue(&v, …); if err != nil { return v, err }`:
a `none` from the renderer (a Go panic) surfaces as the `internal` error. -/
def renderResult (v0 : GoValue) (s : Section) (sv : List Char) (fv : ℚ) (date1904 : Bool) :
    Except FmtErr FormattedValue :=
  match formatValue v0 s sv fv date1904 with
  | none => .error .internal
  | some r => .ok r

/-- The `"-" + formatted` prefix the positive-section branch applies for a
negative value (only on success, as in the source). -/
def negPrefix (r : Except FmtErr FormattedValue) : Except FmtErr FormattedValue :=
  match r with
  | .ok r => .ok { r with formattedValue := '-' :: r.formattedValue }
  | .error e => .error e

/-- Go's `isNumber` flag: true for the Numeric and Formula cell kinds. -/
def isNumberKind : CellType → Bool
  | .CellTypeNumeric | .CellTypeFormula => true
  | _ => false

/-- The part of Go `CellFormat.FormatValue` after the number parse: the
conditional gate and the ordered section-selection switch.  The final
`.error .internal` models the Go `panic("Unhandled condition")` (reachable in
Go only for non-ordered floats, which the exact-rational model excludes). -/
def formatParsed (ct : CellFormat) (sv : List Char) (isNumber : Bool) (fv : ℚ)
    (date1904 : Bool) : Except FmtErr FormattedValue :=
  if ct.isConditional then .error .unsupportedCondition
  else
    let scount := ct.sections.length
    if scount < 4 ∧ isNumber = false then
      .ok { goValue := .str sv, formattedValue := sv, sect := { typ := .TextFormat } }
    else if scount = 0 then
      .ok { goValue := .num fv, formattedValue := sv, sect := { typ := .NumberFormat } }
    else if scount = 1 ∨ (scount = 2 ∧ fv = 0) ∨ fv > 0 then
      let r := renderResult (.num fv) (ct.sections.getD 0 {}) sv |fv| date1904
      if fv < 0 then negPrefix r else r
    else if 2 ≤ scount ∧ fv < 0 then
      renderResult (.num fv) (ct.sections.getD 1 {}) sv |fv| date1904
    else if 3 ≤ scount ∧ fv = 0 ∧ isNumber = true then
      renderResult (.num fv) (ct.sections.getD 2 {}) sv fv date1904
    else if 3 < scount ∧ isNumber = false then
      renderResult (.str sv) (ct.sections.getD 3 {}) sv |fv| date1904
    else .error .internal

/-- Go `CellFormat.FormatValue`: Boolean and Error bypasses, number parse,
then `formatParsed`. -/
def FormatValue (ct : CellFormat) (sv : List Char) (cellType : CellType) (date1904 : Bool) :
    Except FmtErr FormattedValue :=
  match cellType with
  | .CellTypeBool =>
    if sv = ['1'] then
      .ok { goValue := .boolean true, formattedValue := "TRUE".toList,
            sect := { typ := .BoolFormat } }
    else
      .ok { goValue := .boolean false, formattedValue := "FALSE".toList,
            sect := { typ := .BoolFormat } }
  | .CellTypeError =>
    .ok { goValue := .str sv, formattedValue := sv, sect := { typ := .ErrorFormat } }
  | _ =>
    match (if isNumberKind cellType then parseFloat sv else some 0 : Option ℚ) with
    | none => .error .parseNumber
    | some fv => formatParsed ct sv (isNumberKind cellType) fv date1904

/-- Reduction of `FormatValue` for a numeric-kind cell whose value parses. -/
theorem FormatValue_numeric (ct : CellFormat) (sv : List Char) (ep : Bool) (v : ℚ)
    (kind : CellType) (hk : kind = .CellTypeNumeric ∨ kind = .CellTypeFormula)
    (hp : parseFloat sv = some v) :
    FormatValue ct sv kind ep = formatParsed ct sv true v ep := by
  rcases hk with rfl | rfl <;> simp [FormatValue, isNumberKind, hp]

/-- Reduction of `FormatValue` for a textual-kind cell (no parse attempted,
`fv` defaults to 0). -/
theorem FormatValue_textual (ct : CellFormat) (sv : List Char) (ep : Bool)
    (kind : CellType) (hk : kind = .CellTypeString ∨ kind = .CellTypeInline) :
    FormatValue ct sv kind ep = formatParsed ct sv false 0 ep := by
  rcases hk with rfl | rfl <;> simp [FormatValue, isNumberKind]

/-- End-to-end helper for the sanity checks below. -/
def fvStr (val fmtStr : String) (kind : CellType) : Except FmtErr (List Char) :=
  (FormatValue (ParseFormat fmtStr.toList) val.toList kind false).map (·.formattedValue)

example : fvStr "1234.56" "#" .CellTypeNumeric = .ok ("1235".toList) := by decide
example : fvStr "-1234.56" "#,###" .CellTypeNumeric = .ok ("-1,235".toList) := by decide
example : fvStr "-1.2" "#.#;(#.#)" .CellTypeNumeric = .ok ("(1.2)".toList) := by decide
example : fvStr "0" "#.#;(#.#);\"iszero\"" .CellTypeNumeric = .ok ("iszero".toList) := by decide
example : fvStr "foo" "#.#;(#.#);\"iszero\";\"text >\"@\"< here\"" .CellTypeString
    = .ok ("text >foo".toList ++ "< here".toList) := by decide
example : fvStr "1" "" .CellTypeBool = .ok ("TRUE".toList) := by decide
example : fvStr "-0.256" "# #/#%" .CellTypeNumeric = .ok ("-25 3/5%".toList) := by decide
example : fvStr "42099.625" "yyyy-mm-dd hh:mm" .CellTypeNumeric
    = .ok ("2015-04-05 15:00".toList) := by decide
example : fvStr "2.5" "[hh]:mm" .CellTypeNumeric = .ok ("60:00".toList) := by decide
example : fvStr "0.007" "hh:mm:ss.00" .CellTypeNumeric = .ok ("00:10:04.80".toList) := by decide
example : fvStr "42099.655960" "h:m:s AM/PM" .CellTypeNumeric
    = .ok ("3:44:35 PM".toList) := by decide
example : fvStr "42099.655960" "ddd mmmmm yy" .CellTypeNumeric
    = .ok ("Sun A 15".toList) := by decide
example : fvStr "2.23802615740741" "[hh]:mm:ss.00" .CellTypeNumeric
    = .ok ("53:42:45.46".toList) := by decide
example : fvStr "2.23802615740741" "[mm]:ss.00" .CellTypeNumeric
    = .ok ("3222:45.46".toList) := by decide
example : (FormatValue (ParseFormat ("[hh]:mm".toList)) ("2.5".toList) .CellTypeNumeric false).map
      (·.goValue) = .ok (.dur 216000000000000) := by decide

/-! ## Claims -/

/-- C10: for every compiled format and raw value, a Boolean cell bypasses the
sections entirely; the typed value is `true` with display `TRUE` exactly when
`sv` is the one-character string `"1"`, and `false` with display `FALSE`
otherwise, with section type Boolean. -/
theorem c10_bool_bypass (ct : CellFormat) (sv : List Char) (date1904 : Bool) :
    FormatValue ct sv .CellTypeBool date1904 =
      if sv = "1".toList then
        .ok { goValue := .boolean true, formattedValue := "TRUE".toList,
              sect := { typ := .BoolFormat } }
      else
        .ok { goValue := .boolean false, formattedValue := "FALSE".toList,
              sect := { typ := .BoolFormat } } := rfl

/-- C2 counterexample: a compiled format with `is_conditional = true` does
not fail on a Boolean cell — the Boolean bypass precedes the conditional
gate, so `format_value` succeeds with `TRUE`, refuting the claim that the
gate precedes every bypass. -/
theorem c2_counterexample :
    (ParseFormat ("[=50][h]".toList)).isConditional = true ∧
    FormatValue (ParseFormat ("[=50][h]".toList)) ("1".toList) .CellTypeBool false
      = .ok { goValue := .boolean true, formattedValue := "TRUE".toList,
              sect := { typ := .BoolFormat } } := by decide

/-- C2 amended: for a conditional compiled format, `format_value` fails with
`UnsupportedCondition` for String and Inline cells, and for Numeric and
Formula cells whose raw value parses as a float (an unparseable value fails
with the parse error first); the Boolean and Error bypasses precede the gate
and succeed. -/
theorem c2_conditional_gate (ct : CellFormat) (sv : List Char) (ep : Bool)
    (hc : ct.isConditional = true) :
    FormatValue ct sv .CellTypeString ep = .error .unsupportedCondition ∧
    FormatValue ct sv .CellTypeInline ep = .error .unsupportedCondition ∧
    (∀ v : ℚ, parseFloat sv = some v →
      FormatValue ct sv .CellTypeNumeric ep = .error .unsupportedCondition ∧
      FormatValue ct sv .CellTypeFormula ep = .error .unsupportedCondition) ∧
    (∃ r, FormatValue ct sv .CellTypeBool ep = .ok r) ∧
    (∃ r, FormatValue ct sv .CellTypeError ep = .ok r) := by
  have hgate : ∀ b v, formatParsed ct sv b v ep = .error .unsupportedCondition := by
    intro b v
    unfold formatParsed
    rw [hc]
    rfl
  refine ⟨?_, ?_, fun v hv => ⟨?_, ?_⟩, ?_, ?_⟩
  · rw [FormatValue_textual ct sv ep _ (Or.inl rfl), hgate]
  · rw [FormatValue_textual ct sv ep _ (Or.inr rfl), hgate]
  · rw [FormatValue_numeric ct sv ep v _ (Or.inl rfl) hv, hgate]
  · rw [FormatValue_numeric ct sv ep v _ (Or.inr rfl) hv, hgate]
  · show ∃ r, (if sv = ['1'] then _ else _) = Except.ok r
    by_cases h : sv = ['1'] <;> simp [h]
  · exact ⟨_, rfl⟩

/-- C2 witness: the amended statement applied at the conditional format
`[=50][h]` and the parseable value `1.5`. -/
theorem c2_conditional_gate_witness :
    (ParseFormat ("[=50][h]".toList)).isConditional = true ∧
    (FormatValue (ParseFormat ("[=50][h]".toList)) ("1.5".toList) .CellTypeString false
        = .error .unsupportedCondition ∧
      FormatValue (ParseFormat ("[=50][h]".toList)) ("1.5".toList) .CellTypeNumeric false
        = .error .unsupportedCondition) :=
  ⟨by decide,
    (c2_conditional_gate (ParseFormat ("[=50][h]".toList)) ("1.5".toList) false (by decide)).1,
    ((c2_conditional_gate (ParseFormat ("[=50][h]".toList)) ("1.5".toList) false
        (by decide)).2.2.1 (mkRat 15 10) (by decide)).1⟩

/-- C3: refuted — `format_value` is not total apart from its two declared
errors.  A duration format whose bracketed hour run is 24 characters long
makes `padint` slice the 19-character zero-pad string out of range: Go
panics (modelled as the `internal` error), instead of returning a value or
one of `ParseNumber`/`UnsupportedCondition`. -/
theorem c3_padint_abort :
    padint 24 24 = none ∧
    FormatValue (ParseFormat ("[hhhhhhhhhhhhhhhhhhhhhhhh]".toList)) ("1".toList)
        .CellTypeNumeric false = .error .internal := by decide

/-- C6: refuted — `frap` is not optimal under the denominator bound.  At
`x = 2/5`, `D = 3` it returns `1/2`, yet `1/3` (an admissible denominator)
is strictly closer; the source computes `err1` with `m[1][1]` in place of
`m[1][0]` and compares signed rather than absolute errors. -/
theorem c6_frap_not_optimal :
    frap (mkRat 2 5) 3 = (1, 2) ∧
    (1 : ℤ) ≤ 3 ∧ (3 : ℤ) ≤ 3 ∧
    |mkRat 2 5 - (1 : ℚ) / 3| < |mkRat 2 5 - (1 : ℚ) / 2| := by decide

/-- The hypothesis of claim C8, written from the claim's words: the input
contains no unescaped occurrence of the terminator (an occurrence counts as
escaped when a backslash immediately precedes it). -/
def specNoUnescapedOccurrence (input : List Char) (ch : Char) : Prop :=
  ∀ i, i < input.length → input.getD i ' ' = ch → 0 < i ∧ input.getD (i - 1) ' ' = '\\'

instance (input : List Char) (ch : Char) : Decidable (specNoUnescapedOccurrence input ch) := by
  unfold specNoUnescapedOccurrence
  infer_instance

/-- C8 counterexample: the input `a\"b` contains only an escaped occurrence
of the terminator, yet `read_to_char` does not return the original input: it
consumes and discards the prefix through the escaped terminator and returns
the remainder `b`. -/
theorem c8_counterexample :
    specNoUnescapedOccurrence ("a\\\"b".toList) '"' ∧
    readToChar ("a\\\"b".toList) '"' ≠ ([], "a\\\"b".toList) ∧
    readToChar ("a\\\"b".toList) '"' = ([], "b".toList) := by decide

/-- C8 amended: when the input contains no occurrence of the terminator at
all, `read_to_char` returns `(nil, input)` with the original, unmodified
input.  (With escaped occurrences present, the prefix through the last
escaped occurrence is consumed and discarded instead.) -/
theorem c8_no_terminator (input : List Char) (ch : Char) (h : ch ∉ input) :
    readToChar input ch = ([], input) := by
  unfold readToChar readToCharLoop
  have : input.findIdx? (· = ch) = none := by
    rw [List.findIdx?_eq_none_iff]
    intro x hx
    simp only [decide_eq_false_iff_not]
    exact fun hxc => h (hxc ▸ hx)
  rw [this]

/-- C8 witness: the amended statement applied at a terminator-free input. -/
theorem c8_no_terminator_witness :
    '"' ∉ ("no term".toList) ∧ readToChar ("no term".toList) '"' = ([], "no term".toList) :=
  ⟨by decide, c8_no_terminator ("no term".toList) '"' (by decide)⟩

/-- C1: the section selection rule table for a non-conditional compiled
format: with `n = 1` a numeric value renders through section 0 on `|v|` with
a `-` prefix when `v < 0`; with `n ≥ 2` a negative value renders through
section 1 on `|v|` with no prefix; with `n ≥ 3` a zero renders through
section 2; a textual cell with `n < 4` is emitted verbatim with section type
Text, and with `n ≥ 4` renders through section 3. -/
theorem c1_section_selection (ct : CellFormat) (sv : List Char) (v : ℚ) (ep : Bool)
    (hc : ct.isConditional = false) (hp : parseFloat sv = some v) :
    (ct.sections.length = 1 →
      FormatValue ct sv .CellTypeNumeric ep =
        (if v < 0 then
          negPrefix (renderResult (.num v) (ct.sections.getD 0 {}) sv |v| ep)
         else renderResult (.num v) (ct.sections.getD 0 {}) sv |v| ep)) ∧
    (2 ≤ ct.sections.length → v < 0 →
      FormatValue ct sv .CellTypeNumeric ep =
        renderResult (.num v) (ct.sections.getD 1 {}) sv |v| ep) ∧
    (3 ≤ ct.sections.length → v = 0 →
      FormatValue ct sv .CellTypeNumeric ep =
        renderResult (.num v) (ct.sections.getD 2 {}) sv v ep) ∧
    (∀ kind, kind = .CellTypeString ∨ kind = .CellTypeInline →
      (ct.sections.length < 4 →
        FormatValue ct sv kind ep =
          .ok { goValue := .str sv, formattedValue := sv, sect := { typ := .TextFormat } }) ∧
      (4 ≤ ct.sections.length →
        FormatValue ct sv kind ep =
          renderResult (.str sv) (ct.sections.getD 3 {}) sv 0 ep)) := by
  have hcond : ¬(ct.isConditional = true) := by rw [hc]; simp
  refine ⟨fun h1 => ?_, fun h2 hneg => ?_, fun h3 hz => ?_,
    fun kind hk => ⟨fun hlt => ?_, fun hge => ?_⟩⟩
  · rw [FormatValue_numeric ct sv ep v _ (Or.inl rfl) hp]
    unfold formatParsed
    rw [if_neg hcond]
    dsimp only
    rw [if_neg (by simp), if_neg (by omega), if_pos (Or.inl h1)]
  · rw [FormatValue_numeric ct sv ep v _ (Or.inl rfl) hp]
    unfold formatParsed
    rw [if_neg hcond]
    dsimp only
    rw [if_neg (by simp), if_neg (by omega),
      if_neg (by push_neg; exact ⟨by omega, fun _ => by linarith, by linarith⟩),
      if_pos ⟨h2, hneg⟩]
  · subst hz
    rw [FormatValue_numeric ct sv ep 0 _ (Or.inl rfl) hp]
    unfold formatParsed
    rw [if_neg hcond]
    dsimp only
    rw [if_neg (by simp), if_neg (by omega),
      if_neg (by push_neg; exact ⟨by omega, fun h => absurd h (by omega), by norm_num⟩),
      if_neg (by push_neg; intro _; norm_num),
      if_pos ⟨h3, rfl, rfl⟩]
  · rw [FormatValue_textual ct sv ep kind hk]
    unfold formatParsed
    rw [if_neg hcond]
    dsimp only
    rw [if_pos ⟨hlt, rfl⟩]
  · rw [FormatValue_textual ct sv ep kind hk]
    unfold formatParsed
    rw [if_neg hcond]
    dsimp only
    rw [if_neg (by push_neg; intro h; exact absurd hge (by omega)),
      if_neg (by omega),
      if_neg (by push_neg; exact ⟨by omega, fun h => absurd h (by omega), by norm_num⟩),
      if_neg (by push_neg; intro _; norm_num),
      if_neg (by push_neg; intro _ _; simp),
      if_pos ⟨by omega, rfl⟩]
    rw [abs_zero]

/-! #### C7: trailing-comma scaling -/

theorem stripCommaRev_scale (l : List Char) (v c : ℚ) :
    stripCommaRev (c * v) l = (c * (stripCommaRev v l).1, (stripCommaRev v l).2) := by
  induction l generalizing v with
  | nil => simp [stripCommaRev]
  | cons ch rest ih =>
    by_cases h : ch = ','
    · subst h
      rw [show stripCommaRev (c * v) (',' :: rest) = stripCommaRev (c * v / 1000) rest from rfl,
        show stripCommaRev v (',' :: rest) = stripCommaRev (v / 1000) rest from rfl,
        mul_div_assoc, ih]
    · have e1 : stripCommaRev (c * v) (ch :: rest) = (c * v, ch :: rest) := by
        unfold stripCommaRev
        split
        · next heq => exact absurd (List.cons.injEq .. ▸ congrArg id heq).1 h
        · rfl
      have e2 : stripCommaRev v (ch :: rest) = (v, ch :: rest) := by
        unfold stripCommaRev
        split
        · next heq => exact absurd (List.cons.injEq .. ▸ congrArg id heq).1 h
        · rfl
      rw [e1, e2]

theorem stripTrailingComma_scale (d : List Char) (v c : ℚ) :
    stripTrailingComma (c * v) d = (c * (stripTrailingComma v d).1, (stripTrailingComma v d).2) := by
  unfold stripTrailingComma
  rw [stripCommaRev_scale]

theorem stripTrailingComma_scale_fst (d : List Char) (v c : ℚ) :
    (stripTrailingComma (c * v) d).1 = c * (stripTrailingComma v d).1 := by
  rw [stripTrailingComma_scale]

theorem stripTrailingComma_scale_snd (d : List Char) (v c : ℚ) :
    (stripTrailingComma (c * v) d).2 = (stripTrailingComma v d).2 := by
  rw [stripTrailingComma_scale]

theorem stripCommaRev_replicate (k : ℕ) (v : ℚ) (l : List Char) :
    stripCommaRev v (List.replicate k ',' ++ l) = stripCommaRev (v / 1000 ^ k) l := by
  induction k generalizing v with
  | zero => simp
  | succ k ih =>
    rw [List.replicate_succ, List.cons_append,
      show stripCommaRev v (',' :: (List.replicate k ',' ++ l))
        = stripCommaRev (v / 1000) (List.replicate k ',' ++ l) from rfl, ih]
    ring_nf

theorem stripTrailingComma_commas (d : List Char) (k : ℕ) (v : ℚ) :
    stripTrailingComma v (d ++ List.replicate k ',') =
      ((stripTrailingComma v d).1 / 1000 ^ k, (stripTrailingComma v d).2) := by
  unfold stripTrailingComma
  rw [List.reverse_append, List.reverse_replicate, stripCommaRev_replicate,
    div_eq_mul_inv, mul_comm, stripCommaRev_scale]
  simp only [Prod.mk.injEq]
  exact ⟨by rw [mul_comm, ← div_eq_mul_inv], trivial⟩

theorem numScanTok_scale (tok : FmtToken) (st : NumFmtState) (c : ℚ) :
    numScanTok { st with v := c * st.v } tok
      = { numScanTok st tok with v := c * (numScanTok st tok).v } := by
  unfold numScanTok
  cases htt : tok.typ <;>
    simp_all [stripTrailingComma_scale_fst, stripTrailingComma_scale_snd, mul_assoc]

theorem numScan_foldl_scale (ts : List FmtToken) (st : NumFmtState) (c : ℚ) :
    ts.foldl numScanTok { st with v := c * st.v }
      = { ts.foldl numScanTok st with v := c * (ts.foldl numScanTok st).v } := by
  induction ts generalizing st with
  | nil => rfl
  | cons t rest ih =>
    rw [List.foldl_cons, List.foldl_cons, numScanTok_scale, ih]

theorem numScanTok_commas (st : NumFmtState) (tt : FmtTokenType)
    (htt : tt = .TokNumInt ∨ tt = .TokNumDec) (sz : ℕ) (d : List Char) (k : ℕ) :
    numScanTok st { typ := tt, size := sz, data := d ++ List.replicate k ',' }
      = numScanTok { st with v := st.v / 1000 ^ k } { typ := tt, size := sz, data := d } := by
  have hdiv : ∀ w : ℚ, w / 1000 ^ k = (1000 ^ k : ℚ)⁻¹ * w := fun w => by
    rw [div_eq_mul_inv, mul_comm]
  rcases htt with rfl | rfl <;>
    · unfold numScanTok
      simp only []
      rw [stripTrailingComma_commas, hdiv (stripTrailingComma st.v d).1,
        hdiv st.v, stripTrailingComma_scale]

theorem numEmitTok_data_irrelevant (sc : NumFmtState) (fn fd : ℤ) (dv ev : List Char)
    (acc : List (List Char) × List Char) (tt : FmtTokenType)
    (htt : tt = .TokNumInt ∨ tt = .TokNumDec) (sz : ℕ) (d₁ d₂ : List Char) :
    numEmitTok sc fn fd dv ev acc { typ := tt, size := sz, data := d₁ }
      = numEmitTok sc fn fd dv ev acc { typ := tt, size := sz, data := d₂ } := by
  rcases htt with rfl | rfl <;> rfl

theorem numScan_commas (l₁ l₂ : List FmtToken) (tt : FmtTokenType)
    (htt : tt = .TokNumInt ∨ tt = .TokNumDec) (sz : ℕ) (d : List Char) (k : ℕ) (v : ℚ) :
    numScan (l₁ ++ { typ := tt, size := sz, data := d ++ List.replicate k ',' } :: l₂) v
      = numScan (l₁ ++ { typ := tt, size := sz, data := d } :: l₂) (v / 1000 ^ k) := by
  have hdiv : ∀ w : ℚ, w / 1000 ^ k = (1000 ^ k : ℚ)⁻¹ * w := fun w => by
    rw [div_eq_mul_inv, mul_comm]
  unfold numScan
  rw [List.foldl_append, List.foldl_append, List.foldl_cons, List.foldl_cons]
  have hinit : ({ v := v / 1000 ^ k } : NumFmtState)
      = { ({ v := v } : NumFmtState) with v := (1000 ^ k : ℚ)⁻¹ * ({ v := v } : NumFmtState).v } := by
    rw [← hdiv]
  rw [hinit, numScan_foldl_scale]
  rw [numScanTok_commas _ tt htt sz d k]
  congr 1
  rw [← hdiv]

theorem numEmit_foldl_commas (l₁ l₂ : List FmtToken) (tt : FmtTokenType)
    (htt : tt = .TokNumInt ∨ tt = .TokNumDec) (sz : ℕ) (d : List Char) (k : ℕ)
    (sc : NumFmtState) (fn fd : ℤ) (dv ev : List Char) (init : List (List Char) × List Char) :
    (l₁ ++ { typ := tt, size := sz, data := d ++ List.replicate k ',' } :: l₂).foldl
        (numEmitTok sc fn fd dv ev) init
      = (l₁ ++ { typ := tt, size := sz, data := d } :: l₂).foldl
          (numEmitTok sc fn fd dv ev) init := by
  rw [List.foldl_append, List.foldl_append, List.foldl_cons, List.foldl_cons,
    numEmitTok_data_irrelevant _ _ _ _ _ _ tt htt sz (d ++ List.replicate k ',') d]

theorem formatNumber_commas (l₁ l₂ : List FmtToken) (tt : FmtTokenType)
    (htt : tt = .TokNumInt ∨ tt = .TokNumDec) (sz : ℕ) (d : List Char) (k : ℕ) (v : ℚ) :
    formatNumber (l₁ ++ { typ := tt, size := sz, data := d ++ List.replicate k ',' } :: l₂) v
      = formatNumber (l₁ ++ { typ := tt, size := sz, data := d } :: l₂) (v / 1000 ^ k) := by
  unfold formatNumber
  dsimp only
  rw [numScan_commas l₁ l₂ tt htt sz d k v,
    numEmit_foldl_commas l₁ l₂ tt htt sz d k]

/-- C7: appending `k` trailing commas to an integer or decimal placeholder
pattern makes the renderer format `v / 1000^k` instead of `v`, and commas
trailing the integer pattern and the decimal pattern of the same section
compound multiplicatively on the same value. -/
theorem c7_trailing_comma_scaling :
    (∀ (l₁ l₂ : List FmtToken) (sz : ℕ) (d : List Char) (k : ℕ) (v : ℚ),
      formatNumber
          (l₁ ++ { typ := .TokNumInt, size := sz, data := d ++ List.replicate k ',' } :: l₂) v
        = formatNumber (l₁ ++ { typ := .TokNumInt, size := sz, data := d } :: l₂)
            (v / 1000 ^ k)) ∧
    (∀ (l₁ l₂ : List FmtToken) (sz : ℕ) (d : List Char) (k : ℕ) (v : ℚ),
      formatNumber
          (l₁ ++ { typ := .TokNumDec, size := sz, data := d ++ List.replicate k ',' } :: l₂) v
        = formatNumber (l₁ ++ { typ := .TokNumDec, size := sz, data := d } :: l₂)
            (v / 1000 ^ k)) ∧
    (∀ (l₁ l₂ l₃ : List FmtToken) (sz₁ sz₂ : ℕ) (d₁ d₂ : List Char) (k₁ k₂ : ℕ) (v : ℚ),
      formatNumber
          (l₁ ++ { typ := .TokNumInt, size := sz₁, data := d₁ ++ List.replicate k₁ ',' } ::
            (l₂ ++ { typ := .TokNumDec, size := sz₂, data := d₂ ++ List.replicate k₂ ',' } :: l₃))
          v
        = formatNumber
            (l₁ ++ { typ := .TokNumInt, size := sz₁, data := d₁ } ::
              (l₂ ++ { typ := .TokNumDec, size := sz₂, data := d₂ } :: l₃))
            (v / 1000 ^ (k₁ + k₂))) := by
  refine ⟨fun l₁ l₂ sz d k v => formatNumber_commas l₁ l₂ _ (Or.inl rfl) sz d k v,
    fun l₁ l₂ sz d k v => formatNumber_commas l₁ l₂ _ (Or.inr rfl) sz d k v,
    fun l₁ l₂ l₃ sz₁ sz₂ d₁ d₂ k₁ k₂ v => ?_⟩
  have h1 := formatNumber_commas
    (l₁ ++ ({ typ := .TokNumInt, size := sz₁, data := d₁ ++ List.replicate k₁ ',' } : FmtToken) :: l₂)
    l₃ _ (Or.inr rfl) sz₂ d₂ k₂ v
  have h2 := formatNumber_commas l₁
    (l₂ ++ ({ typ := .TokNumDec, size := sz₂, data := d₂ } : FmtToken) :: l₃)
    _ (Or.inl rfl) sz₁ d₁ k₁ (v / 1000 ^ k₂)
  simp only [List.append_assoc, List.cons_append] at h1 h2
  rw [h1, h2, div_div, ← pow_add, add_comm k₂ k₁]

/-! #### C4: month/minute disambiguation -/

/-- Relation between a possibly retagged token and its original: equal, or a
`Month` retagged to `Minute`. -/
def monthRel (a p : FmtToken) : Prop :=
  a = p ∨ (p.typ = .TokMonth ∧ a = { p with typ := .TokMinute })

theorem monthRel_triv {a p : FmtToken} (h : monthRel a p) :
    (a.typ = .TokLiteral ∨ a.typ = .TokSpace ∨ a.typ = .TokRepeat) ↔
      (p.typ = .TokLiteral ∨ p.typ = .TokSpace ∨ p.typ = .TokRepeat) := by
  rcases h with rfl | ⟨hm, rfl⟩
  · exact Iff.rfl
  · simp [hm]

theorem monthRel_HT {a p : FmtToken} (h : monthRel a p) :
    (a.typ = .TokHour ∨ a.typ = .TokTotalHours) ↔
      (p.typ = .TokHour ∨ p.typ = .TokTotalHours) := by
  rcases h with rfl | ⟨hm, rfl⟩
  · exact Iff.rfl
  · simp [hm]

theorem firstNonTriv_HT {l l' : List FmtToken} (h : List.Forall₂ monthRel l l') :
    (firstNonTriv l = .TokHour ∨ firstNonTriv l = .TokTotalHours) ↔
      (firstNonTriv l' = .TokHour ∨ firstNonTriv l' = .TokTotalHours) := by
  induction h with
  | nil => exact Iff.rfl
  | @cons a b ta tb h₁ h₂ ih =>
    unfold firstNonTriv
    rcases Classical.em (a.typ = .TokLiteral ∨ a.typ = .TokSpace ∨ a.typ = .TokRepeat) with
      htriv | htriv
    · rw [if_pos htriv, if_pos ((monthRel_triv h₁).mp htriv)]
      exact ih
    · rw [if_neg htriv, if_neg (fun hh => htriv ((monthRel_triv h₁).mpr hh))]
      exact monthRel_HT h₁

theorem forall₂_snoc {α : Type} {R : α → α → Prop} {l l' : List α} (h : List.Forall₂ R l l')
    {a b : α} (hab : R a b) : List.Forall₂ R (l ++ [a]) (l' ++ [b]) := by
  induction h with
  | nil => exact List.Forall₂.cons hab List.Forall₂.nil
  | cons h₁ _ ih => exact List.Forall₂.cons h₁ ih

/-- The disambiguation pass expressed against the untouched original list:
`pref` is the original prefix already processed, `rest` the original suffix.
Mirrors `resolveMonths` with the mutated prefix replaced by the original
one. -/
def zipResF (pref rest : List FmtToken) (hd ht : Bool) : List FmtToken × Bool × Bool :=
  match rest with
  | [] => ([], hd, ht)
  | t :: rs =>
    if t.typ = .TokMonth then
      if firstNonTriv pref.reverse = .TokHour ∨ firstNonTriv pref.reverse = .TokTotalHours ∨
          firstNonTriv rs = .TokSecond ∨ firstNonTriv rs = .TokTotalSeconds then
        let r := zipResF (pref ++ [t]) rs hd true
        ({ t with typ := .TokMinute } :: r.1, r.2)
      else
        let r := zipResF (pref ++ [t]) rs true ht
        (t :: r.1, r.2)
    else
      let r := zipResF (pref ++ [t]) rs hd ht
      (t :: r.1, r.2)

theorem resolveMonths_eq_zip (rest : List FmtToken) :
    ∀ (acc pref : List FmtToken) (hd ht : Bool), List.Forall₂ monthRel acc pref →
      resolveMonths acc rest hd ht
        = (acc ++ (zipResF pref rest hd ht).1, (zipResF pref rest hd ht).2) := by
  induction rest with
  | nil => intro acc pref hd ht h; simp [resolveMonths, zipResF]
  | cons t rs ih =>
    intro acc pref hd ht h
    have hrev : List.Forall₂ monthRel acc.reverse pref.reverse :=
      List.forall₂_reverse_iff.mpr h
    have hiff :
        (firstNonTriv acc.reverse = .TokHour ∨ firstNonTriv acc.reverse = .TokTotalHours ∨
          firstNonTriv rs = .TokSecond ∨ firstNonTriv rs = .TokTotalSeconds) ↔
        (firstNonTriv pref.reverse = .TokHour ∨ firstNonTriv pref.reverse = .TokTotalHours ∨
          firstNonTriv rs = .TokSecond ∨ firstNonTriv rs = .TokTotalSeconds) := by
      have hab := firstNonTriv_HT hrev
      tauto
    unfold resolveMonths zipResF
    by_cases hm : t.typ = .TokMonth
    · rw [if_pos hm, if_pos hm]
      by_cases hc : firstNonTriv acc.reverse = .TokHour ∨
          firstNonTriv acc.reverse = .TokTotalHours ∨
          firstNonTriv rs = .TokSecond ∨ firstNonTriv rs = .TokTotalSeconds
      · rw [if_pos hc, if_pos (hiff.mp hc)]
        rw [ih (acc ++ [{ t with typ := .TokMinute }]) (pref ++ [t]) hd true
          (forall₂_snoc h (Or.inr ⟨hm, rfl⟩))]
        simp [List.append_assoc]
      · rw [if_neg hc, if_neg (fun hh => hc (hiff.mpr hh))]
        rw [ih (acc ++ [t]) (pref ++ [t]) true ht
          (forall₂_snoc h (Or.inl rfl))]
        simp [List.append_assoc]
    · rw [if_neg hm, if_neg hm]
      rw [ih (acc ++ [t]) (pref ++ [t]) hd ht (forall₂_snoc h (Or.inl rfl))]
      simp [List.append_assoc]

theorem zipResF_fst_getD (rest : List FmtToken) :
    ∀ (pref : List FmtToken) (hd ht : Bool) (i : ℕ),
      (zipResF pref rest hd ht).1.getD i {} =
        if (rest.getD i {}).typ = .TokMonth ∧
            (firstNonTriv (pref ++ rest.take i).reverse = .TokHour ∨
             firstNonTriv (pref ++ rest.take i).reverse = .TokTotalHours ∨
             firstNonTriv (rest.drop (i + 1)) = .TokSecond ∨
             firstNonTriv (rest.drop (i + 1)) = .TokTotalSeconds)
        then { rest.getD i {} with typ := .TokMinute }
        else rest.getD i {} := by
  induction rest with
  | nil =>
    intro pref hd ht i
    simp [zipResF]
  | cons t rs ih =>
    intro pref hd ht i
    cases i with
    | zero =>
      unfold zipResF
      by_cases hm : t.typ = .TokMonth
      · rw [if_pos hm]
        by_cases hc : firstNonTriv pref.reverse = .TokHour ∨
            firstNonTriv pref.reverse = .TokTotalHours ∨
            firstNonTriv rs = .TokSecond ∨ firstNonTriv rs = .TokTotalSeconds
        · rw [if_pos hc]
          simp only [List.getD_cons_zero, List.take_zero, List.append_nil, List.drop_succ_cons,
            List.drop_zero]
          rw [if_pos ⟨hm, hc⟩]
        · rw [if_neg hc]
          simp only [List.getD_cons_zero, List.take_zero, List.append_nil, List.drop_succ_cons,
            List.drop_zero]
          rw [if_neg (fun hh => hc hh.2)]
      · rw [if_neg hm]
        simp only [List.getD_cons_zero, List.take_zero, List.append_nil, List.drop_succ_cons,
          List.drop_zero]
        rw [if_neg (fun hh => hm hh.1)]
    | succ i =>
      unfold zipResF
      have hshape : ∀ (x : FmtToken) (l : List FmtToken),
          (x :: l).getD (i + 1) ({} : FmtToken) = l.getD i {} := fun x l => rfl
      by_cases hm : t.typ = .TokMonth
      · by_cases hc : firstNonTriv pref.reverse = .TokHour ∨
            firstNonTriv pref.reverse = .TokTotalHours ∨
            firstNonTriv rs = .TokSecond ∨ firstNonTriv rs = .TokTotalSeconds
        · rw [if_pos hm, if_pos hc]
          simp only [List.getD_cons_succ, List.take_succ_cons, List.drop_succ_cons]
          rw [ih (pref ++ [t]) hd true i]
          simp [List.append_assoc]
        · rw [if_pos hm, if_neg hc]
          simp only [List.getD_cons_succ, List.take_succ_cons, List.drop_succ_cons]
          rw [ih (pref ++ [t]) true ht i]
          simp [List.append_assoc]
      · rw [if_neg hm]
        simp only [List.getD_cons_succ, List.take_succ_cons, List.drop_succ_cons]
        rw [ih (pref ++ [t]) hd ht i]
        simp [List.append_assoc]

/-- C4: in a section tokenised by the time sub-parser, the token at position
`i` ends up `Minute` exactly when the scan produced a `Month` there and the
nearest non-trivial preceding token (skipping Literal/Space/Repeat) is `Hour`
or `TotalHours`, or the nearest non-trivial following token is `Second` or
`TotalSeconds`; otherwise it keeps the scan's type (`Month` stays `Month`). -/
theorem c4_month_retag (init : List FmtToken) (format : List Char) (i : ℕ) :
    ((tokenizeTime init format).1.tokens.getD i {}).typ =
      (if ((timeScan init format).tokens.getD i {}).typ = .TokMonth ∧
          (prevTokenType (timeScan init format).tokens i = .TokHour ∨
           prevTokenType (timeScan init format).tokens i = .TokTotalHours ∨
           nextTokenType (timeScan init format).tokens i = .TokSecond ∨
           nextTokenType (timeScan init format).tokens i = .TokTotalSeconds)
       then .TokMinute
       else ((timeScan init format).tokens.getD i {}).typ) := by
  unfold tokenizeTime
  dsimp only
  rw [resolveMonths_eq_zip _ [] [] _ _ List.Forall₂.nil]
  dsimp only
  rw [List.nil_append, zipResF_fst_getD]
  unfold prevTokenType nextTokenType
  simp only [List.nil_append]
  by_cases hcond : ((timeScan init format).tokens.getD i {}).typ = .TokMonth ∧
      (firstNonTriv ((timeScan init format).tokens.take i).reverse = .TokHour ∨
       firstNonTriv ((timeScan init format).tokens.take i).reverse = .TokTotalHours ∨
       firstNonTriv ((timeScan init format).tokens.drop (i + 1)) = .TokSecond ∨
       firstNonTriv ((timeScan init format).tokens.drop (i + 1)) = .TokTotalSeconds)
  · rw [if_pos hcond, if_pos hcond]
  · rw [if_neg hcond, if_neg hcond]

/-! #### C5: time sub-type classification -/

/-- A total-hours/minutes/seconds token. -/
def isTotalTok (t : FmtToken) : Bool :=
  match t.typ with
  | .TokTotalHours | .TokTotalMinutes | .TokTotalSeconds => true
  | _ => false

/-- A `Year` or `Day` token (the date-bearing tokens the scan loop flags). -/
def isYDTok (t : FmtToken) : Bool :=
  match t.typ with
  | .TokYear | .TokDay => true
  | _ => false

/-- An `Hour`, `Second` or `SecFraction` token (the time-bearing tokens the
scan loop flags). -/
def isHSFTok (t : FmtToken) : Bool :=
  match t.typ with
  | .TokHour | .TokSecond | .TokSecFraction => true
  | _ => false

def isMonthTok (t : FmtToken) : Bool :=
  match t.typ with
  | .TokMonth => true
  | _ => false

def isMinuteTok (t : FmtToken) : Bool :=
  match t.typ with
  | .TokMinute => true
  | _ => false

/-- A date-bearing token of the final list per the spec: Year, Day, or a
Month that stayed a month. -/
def isDateBearing (t : FmtToken) : Bool :=
  match t.typ with
  | .TokYear | .TokDay | .TokMonth => true
  | _ => false

/-- A time-bearing token of the final list per the spec: Hour, Second,
SecFraction, or a Month retagged Minute. -/
def isTimeBearing (t : FmtToken) : Bool :=
  match t.typ with
  | .TokHour | .TokSecond | .TokSecFraction | .TokMinute => true
  | _ => false

/-- The sub-type determination exactly as the spec words it, as a function of
the section's final token list (claim C5). -/
def specTimeSubType (toks : List FmtToken) : FormatSubType :=
  if toks.any isTotalTok then .Duration
  else if toks.any isDateBearing ∧ toks.any isTimeBearing then .DateTime
  else if toks.any isDateBearing then .Date
  else if toks.any isTimeBearing then .Time
  else .NoSubType

theorem flush_any (p : FmtToken → Bool)
    (hp : ∀ d, p { typ := .TokLiteral, size := 0, data := d } = false)
    (tokens : List FmtToken) (other : List Char) :
    (flush tokens other).1.any p = tokens.any p := by
  unfold flush
  split
  · rfl
  · simp [List.any_append, hp]

theorem flush_any_total (t : List FmtToken) (o : List Char) :
    (flush t o).1.any isTotalTok = t.any isTotalTok := flush_any _ (fun _ => rfl) t o

theorem flush_any_yd (t : List FmtToken) (o : List Char) :
    (flush t o).1.any isYDTok = t.any isYDTok := flush_any _ (fun _ => rfl) t o

theorem flush_any_hsf (t : List FmtToken) (o : List Char) :
    (flush t o).1.any isHSFTok = t.any isHSFTok := flush_any _ (fun _ => rfl) t o

theorem flush_any_minute (t : List FmtToken) (o : List Char) :
    (flush t o).1.any isMinuteTok = t.any isMinuteTok := flush_any _ (fun _ => rfl) t o

theorem tokenizeCommon_any (p : FmtToken → Bool)
    (hlit : ∀ d, p { typ := .TokLiteral, size := 0, data := d } = false)
    (hsp : ∀ d, p { typ := .TokSpace, size := 0, data := d } = false)
    (hrp : ∀ d, p { typ := .TokRepeat, size := 0, data := d } = false)
    (tokens : List FmtToken) (rem other : List Char) :
    (tokenizeCommon tokens rem other).1.any p = tokens.any p := by
  unfold tokenizeCommon
  cases rem with
  | nil => rfl
  | cons ch rest =>
    dsimp only
    split
    · rfl
    · split
      · rfl
      · split
        · split
          · simp [List.any_append, flush_any p hlit, hsp, hrp]
            split <;> simp [hsp, hrp]
          · rfl
        · rfl

theorem tokenizeCommon_any_total (t : List FmtToken) (r o : List Char) :
    (tokenizeCommon t r o).1.any isTotalTok = t.any isTotalTok :=
  tokenizeCommon_any _ (fun _ => rfl) (fun _ => rfl) (fun _ => rfl) t r o

theorem tokenizeCommon_any_yd (t : List FmtToken) (r o : List Char) :
    (tokenizeCommon t r o).1.any isYDTok = t.any isYDTok :=
  tokenizeCommon_any _ (fun _ => rfl) (fun _ => rfl) (fun _ => rfl) t r o

theorem tokenizeCommon_any_hsf (t : List FmtToken) (r o : List Char) :
    (tokenizeCommon t r o).1.any isHSFTok = t.any isHSFTok :=
  tokenizeCommon_any _ (fun _ => rfl) (fun _ => rfl) (fun _ => rfl) t r o

theorem tokenizeCommon_any_minute (t : List FmtToken) (r o : List Char) :
    (tokenizeCommon t r o).1.any isMinuteTok = t.any isMinuteTok :=
  tokenizeCommon_any _ (fun _ => rfl) (fun _ => rfl) (fun _ => rfl) t r o

/-- The scan loop maintains: each flag equals the presence of the
corresponding token kinds, and no `Minute` token exists yet. -/
theorem timeLoop_inv (fuel : Nat) :
    ∀ s : TimeScanState,
      s.hasTotal = s.tokens.any isTotalTok →
      s.hasDate = s.tokens.any isYDTok →
      s.hasTime = s.tokens.any isHSFTok →
      s.tokens.any isMinuteTok = false →
      (timeLoop fuel s).hasTotal = (timeLoop fuel s).tokens.any isTotalTok ∧
      (timeLoop fuel s).hasDate = (timeLoop fuel s).tokens.any isYDTok ∧
      (timeLoop fuel s).hasTime = (timeLoop fuel s).tokens.any isHSFTok ∧
      (timeLoop fuel s).tokens.any isMinuteTok = false := by
  induction fuel with
  | zero => intro s h1 h2 h3 h4; exact ⟨h1, h2, h3, h4⟩
  | succ fuel ih =>
    intro s h1 h2 h3 h4
    unfold timeLoop
    cases hrem : s.rem with
    | nil => exact ⟨h1, h2, h3, h4⟩
    | cons ch rest =>
      dsimp only
      by_cases hg1 : ch = 'y' ∨ ch = 'm' ∨ ch = 'd' ∨ ch = 'h' ∨ ch = 's' ∨ ch = '0'
      · rw [if_pos hg1]
        refine ih _ ?_ ?_ ?_ ?_ <;>
          rcases hg1 with rfl | rfl | rfl | rfl | rfl | rfl <;>
            simp +decide [List.any_append, flush_any_total, flush_any_yd, flush_any_hsf,
              flush_any_minute, isTotalTok, isYDTok, isHSFTok, isMinuteTok, h1, h2, h3, h4]
      · rw [if_neg hg1]
        by_cases hg2 : ch = '['
        · rw [if_pos hg2]
          by_cases hlen : (ch :: rest).length < 3
          · rw [if_pos hlen]
            exact ih _ h1 h2 h3 h4
          · rw [if_neg hlen]
            split
            · split
              · rename_i hc
                rcases hc with hc | hc | hc <;>
                  refine ih _ ?_ ?_ ?_ ?_ <;>
                    simp +decide [hc, List.any_append, flush_any_total, flush_any_yd,
                      flush_any_hsf, flush_any_minute, isTotalTok, isYDTok, isHSFTok,
                      isMinuteTok, h1, h2, h3, h4]
              · exact ih _ h1 h2 h3 h4
            · exact ih _ h1 h2 h3 h4
        · rw [if_neg hg2]
          by_cases hg3 : ch = 'A' ∨ ch = 'a'
          · rw [if_pos hg3]
            by_cases hap : (ch :: rest).take 3 = "A/P".toList ∨ (ch :: rest).take 3 = "a/p".toList
            · rw [if_pos hap]
              refine ih _ ?_ ?_ ?_ ?_ <;>
                simp +decide [List.any_append, flush_any_total, flush_any_yd, flush_any_hsf,
                  flush_any_minute, isTotalTok, isYDTok, isHSFTok, isMinuteTok, h1, h2, h3, h4]
            · rw [if_neg hap]
              by_cases hap5 : (ch :: rest).take 5 = "AM/PM".toList ∨
                  (ch :: rest).take 5 = "am/pm".toList
              · rw [if_pos hap5]
                refine ih _ ?_ ?_ ?_ ?_ <;>
                  simp +decide [List.any_append, flush_any_total, flush_any_yd, flush_any_hsf,
                    flush_any_minute, isTotalTok, isYDTok, isHSFTok, isMinuteTok, h1, h2, h3, h4]
              · rw [if_neg hap5]
                exact ih _ h1 h2 h3 h4
          · rw [if_neg hg3]
            by_cases hg4 : ch = ';'
            · rw [if_pos hg4]
              refine ⟨?_, ?_, ?_, ?_⟩ <;>
                simp [flush_any_total, flush_any_yd, flush_any_hsf, flush_any_minute,
                  h1, h2, h3, h4]
            · rw [if_neg hg4]
              refine ih _ ?_ ?_ ?_ ?_ <;>
                simp [tokenizeCommon_any_total, tokenizeCommon_any_yd, tokenizeCommon_any_hsf,
                  tokenizeCommon_any_minute, h1, h2, h3, h4]

/-- Retagging `Month` to `Minute` does not change predicates that agree on
the two tags (`zipResF` preserves their `any`). -/
theorem zipResF_any (p : FmtToken → Bool)
    (hp : ∀ t : FmtToken, p { t with typ := .TokMinute } = p { t with typ := .TokMonth }) :
    ∀ (rest pref : List FmtToken) (hd ht : Bool),
      (zipResF pref rest hd ht).1.any p = rest.any p := by
  intro rest
  induction rest with
  | nil => intro pref hd ht; rfl
  | cons t rs ih =>
    intro pref hd ht
    unfold zipResF
    by_cases hm : t.typ = .TokMonth
    · rw [if_pos hm]
      have ht' : ({ t with typ := .TokMonth } : FmtToken) = t := by
        cases t
        simp_all
      split
      · simp only [List.any_cons, ih]
        rw [hp t, ht']
      · simp [List.any_cons, ih]
    · rw [if_neg hm]
      simp [List.any_cons, ih]

theorem isMonthTok_eq_false {t : FmtToken} (hm : ¬t.typ = .TokMonth) :
    isMonthTok t = false := by
  unfold isMonthTok
  split
  · next heq => exact absurd heq hm
  · rfl

theorem isMonthTok_eq_true {t : FmtToken} (hm : t.typ = .TokMonth) :
    isMonthTok t = true := by
  unfold isMonthTok
  split
  · rfl
  · next hne => exact absurd hm (by intro hh; exact hne hh)

theorem zipResF_flag_hd :
    ∀ (rest pref : List FmtToken) (hd ht : Bool),
      (zipResF pref rest hd ht).2.1
        = (hd || (zipResF pref rest hd ht).1.any isMonthTok) := by
  intro rest
  induction rest with
  | nil => intro pref hd ht; simp [zipResF]
  | cons t rs ih =>
    intro pref hd ht
    unfold zipResF
    by_cases hm : t.typ = .TokMonth
    · rw [if_pos hm]
      split
      · rw [show ∀ r1 r2 : List FmtToken × Bool × Bool,
            (({ t with typ := FmtTokenType.TokMinute } : FmtToken) :: r1.1, r2.2).1.any isMonthTok
              = (isMonthTok { t with typ := FmtTokenType.TokMinute } || r1.1.any isMonthTok)
            from fun r1 r2 => List.any_cons]
        rw [ih (pref ++ [t]) hd true]
        simp [isMonthTok]
      · rw [show (t :: (zipResF (pref ++ [t]) rs true ht).1).any isMonthTok
            = (isMonthTok t || (zipResF (pref ++ [t]) rs true ht).1.any isMonthTok)
            from List.any_cons]
        rw [ih (pref ++ [t]) true ht, isMonthTok_eq_true hm]
        simp
    · rw [if_neg hm]
      rw [show (t :: (zipResF (pref ++ [t]) rs hd ht).1).any isMonthTok
          = (isMonthTok t || (zipResF (pref ++ [t]) rs hd ht).1.any isMonthTok)
          from List.any_cons]
      rw [ih (pref ++ [t]) hd ht, isMonthTok_eq_false hm]
      simp

theorem isMinuteTok_eq_false {t : FmtToken} (hm : ¬t.typ = .TokMinute) :
    isMinuteTok t = false := by
  unfold isMinuteTok
  split
  · next heq => exact absurd heq hm
  · rfl

theorem zipResF_flag_ht :
    ∀ (rest pref : List FmtToken) (hd ht : Bool), rest.any isMinuteTok = false →
      (zipResF pref rest hd ht).2.2
        = (ht || (zipResF pref rest hd ht).1.any isMinuteTok) := by
  intro rest
  induction rest with
  | nil => intro pref hd ht _; simp [zipResF]
  | cons t rs ih =>
    intro pref hd ht hmin
    rw [List.any_cons] at hmin
    simp only [Bool.or_eq_false_iff] at hmin
    obtain ⟨hmt, hmins⟩ := hmin
    unfold zipResF
    by_cases hm : t.typ = .TokMonth
    · rw [if_pos hm]
      split
      · rw [show ∀ r1 : List FmtToken,
            (({ t with typ := FmtTokenType.TokMinute } : FmtToken) :: r1).any isMinuteTok
              = (isMinuteTok { t with typ := FmtTokenType.TokMinute } || r1.any isMinuteTok)
            from fun r1 => List.any_cons]
        rw [ih (pref ++ [t]) hd true hmins]
        simp [isMinuteTok]
      · rw [show (t :: (zipResF (pref ++ [t]) rs true ht).1).any isMinuteTok
            = (isMinuteTok t || (zipResF (pref ++ [t]) rs true ht).1.any isMinuteTok)
            from List.any_cons]
        rw [ih (pref ++ [t]) true ht hmins, hmt]
        simp
    · rw [if_neg hm]
      rw [show (t :: (zipResF (pref ++ [t]) rs hd ht).1).any isMinuteTok
          = (isMinuteTok t || (zipResF (pref ++ [t]) rs hd ht).1.any isMinuteTok)
          from List.any_cons]
      rw [ih (pref ++ [t]) hd ht hmins, hmt]
      simp

theorem any_pointwise_or (l : List FmtToken) (p q r : FmtToken → Bool)
    (h : ∀ t, r t = (p t || q t)) : l.any r = (l.any p || l.any q) := by
  induction l with
  | nil => rfl
  | cons a rest ih =>
    simp [List.any_cons, ih, h a, Bool.or_assoc, Bool.or_left_comm]

/-- C5: for a section produced by the time sub-parser from initial tokens
containing no date/time/total/minute tokens (as at every source call site),
the section's sub-type is exactly determined by its final token list, per the
spec's rule: Duration if any total token; else DateTime if both date-bearing
(Year, Day, Month) and time-bearing (Hour, Second, SecFraction, Minute)
tokens are present; else Date; else Time; else None. -/
theorem c5_time_subtype (init : List FmtToken) (format : List Char)
    (h1 : init.any isTotalTok = false) (h2 : init.any isYDTok = false)
    (h3 : init.any isHSFTok = false) (h4 : init.any isMinuteTok = false) :
    (tokenizeTime init format).1.subTyp
      = specTimeSubType (tokenizeTime init format).1.tokens := by
  have hscan := timeLoop_inv format.length
    { tokens := init, rem := format } (by simpa using h1.symm) (by simpa using h2.symm)
    (by simpa using h3.symm) (by simpa using h4)
  obtain ⟨p1, p2, p3, p4⟩ := hscan
  unfold tokenizeTime
  dsimp only
  rw [resolveMonths_eq_zip _ [] [] _ _ List.Forall₂.nil]
  dsimp only
  have hts1 : (timeScan init format).hasTotal
      = (timeScan init format).tokens.any isTotalTok := by
    unfold timeScan
    dsimp only
    rw [flush_any_total]
    exact p1
  have hts2 : (timeScan init format).hasDate
      = (timeScan init format).tokens.any isYDTok := by
    unfold timeScan
    dsimp only
    rw [flush_any_yd]
    exact p2
  have hts3 : (timeScan init format).hasTime
      = (timeScan init format).tokens.any isHSFTok := by
    unfold timeScan
    dsimp only
    rw [flush_any_hsf]
    exact p3
  have hts4 : (timeScan init format).tokens.any isMinuteTok = false := by
    unfold timeScan
    dsimp only
    rw [flush_any_minute]
    exact p4
  set ts := (timeScan init format).tokens with hts
  set Z := zipResF [] ts (timeScan init format).hasDate (timeScan init format).hasTime with hZ
  have htot : Z.1.any isTotalTok = ts.any isTotalTok :=
    zipResF_any isTotalTok (fun t => rfl) ts [] _ _
  have hyd : Z.1.any isYDTok = ts.any isYDTok :=
    zipResF_any isYDTok (fun t => rfl) ts [] _ _
  have hhsf : Z.1.any isHSFTok = ts.any isHSFTok :=
    zipResF_any isHSFTok (fun t => rfl) ts [] _ _
  have hdateB : Z.1.any isDateBearing = (Z.1.any isYDTok || Z.1.any isMonthTok) :=
    any_pointwise_or _ _ _ _ (fun t => by
      unfold isDateBearing isYDTok isMonthTok
      cases t.typ <;> rfl)
  have htimeB : Z.1.any isTimeBearing = (Z.1.any isHSFTok || Z.1.any isMinuteTok) :=
    any_pointwise_or _ _ _ _ (fun t => by
      unfold isTimeBearing isHSFTok isMinuteTok
      cases t.typ <;> rfl)
  have hfhd : Z.2.1 = ((timeScan init format).hasDate || Z.1.any isMonthTok) :=
    zipResF_flag_hd ts [] _ _
  have hfht : Z.2.2 = ((timeScan init format).hasTime || Z.1.any isMinuteTok) :=
    zipResF_flag_ht ts [] _ _ hts4
  have hd_eq : Z.2.1 = Z.1.any isDateBearing := by
    rw [hfhd, hdateB, hyd, hts2]
  have ht_eq : Z.2.2 = Z.1.any isTimeBearing := by
    rw [hfht, htimeB, hhsf, hts3]
  unfold specTimeSubType
  rw [show (timeScan init format).hasTotal = Z.1.any isTotalTok from by rw [htot, hts1],
    hd_eq, ht_eq]
  simp only [List.nil_append]

/-- C5 witness: a date-and-time format classified `DateTime`, matching the
spec function on its final tokens. -/
theorem c5_time_subtype_witness :
    (tokenizeTime [] ("yyyy-mm-dd hh:mm".toList)).1.subTyp
      = specTimeSubType (tokenizeTime [] ("yyyy-mm-dd hh:mm".toList)).1.tokens :=
  c5_time_subtype [] ("yyyy-mm-dd hh:mm".toList) (by decide) (by decide) (by decide) (by decide)

/-! #### C9: adjacent literal tokens -/

/-- A `Literal` token. -/
def isLitTok (t : FmtToken) : Bool :=
  match t.typ with
  | .TokLiteral => true
  | _ => false

/-- Whether the token list ends with a `Literal` token. -/
def endsLit : List FmtToken → Bool
  | [] => false
  | [t] => isLitTok t
  | _ :: rest => endsLit rest

/-- Whether a character buffer begins with the `[` character. -/
def headIsLB : List Char → Bool
  | [] => false
  | c :: _ => c == '['

/-- C9 amended invariant: in every adjacent pair of `Literal` tokens, the
second one's data begins with `[`.  (Such pairs do occur: the bracketed time
path seeds the literal buffer with a lone `[` when a bracket run is not a
valid total-time token, right after the top level flushed a literal.) -/
def AdjOK : List FmtToken → Bool
  | a :: b :: rest => (!(isLitTok a && isLitTok b) || headIsLB b.data) && AdjOK (b :: rest)
  | _ => true

/-- The characters on which `ParseFormat` hands control to `tokenizeTime`,
plus the three characters whose `timeLoop` branch cannot seed the literal
buffer (`0` appends a token, `[` seeds the buffer with `[`, `;` stops). -/
def timeHeadOK (c : Char) : Prop :=
  c = 'y' ∨ c = 'm' ∨ c = 'd' ∨ c = 'h' ∨ c = 's' ∨ c = '0' ∨ c = '[' ∨ c = ';'

/-- The characters on which `ParseFormat` hands control to `tokenizeNumeric`,
plus `;` (whose branch stops the loop without touching the buffer). -/
def numHeadOK (c : Char) : Prop :=
  c = '0' ∨ c = '?' ∨ c = '#' ∨ c = '.' ∨ c = ';'

theorem isLitTok_eq_false {t : FmtToken} (h : ¬t.typ = .TokLiteral) :
    isLitTok t = false := by
  unfold isLitTok
  split
  · next heq => exact absurd heq h
  · rfl

theorem endsLit_append_single (l : List FmtToken) (t : FmtToken) :
    endsLit (l ++ [t]) = isLitTok t := by
  induction l with
  | nil => rfl
  | cons a l ih =>
    cases l with
    | nil => rfl
    | cons b l₂ => simpa [endsLit] using ih

theorem AdjOK_cons_pair (a b : FmtToken) (l : List FmtToken) :
    AdjOK (a :: b :: l)
      = ((!(isLitTok a && isLitTok b) || headIsLB b.data) && AdjOK (b :: l)) := by
  simp [AdjOK]

theorem AdjOK_tail {a : FmtToken} {l : List FmtToken} (h : AdjOK (a :: l) = true) :
    AdjOK l = true := by
  cases l with
  | nil => rfl
  | cons b l₂ =>
    rw [AdjOK_cons_pair] at h
    simp only [Bool.and_eq_true] at h
    exact h.2

theorem AdjOK_pair {a b : FmtToken} {l : List FmtToken} (h : AdjOK (a :: b :: l) = true) :
    (!(isLitTok a && isLitTok b) || headIsLB b.data) = true := by
  rw [AdjOK_cons_pair] at h
  simp only [Bool.and_eq_true] at h
  exact h.1

theorem AdjOK_cons (a : FmtToken) (l : List FmtToken)
    (h1 : AdjOK l = true)
    (h2 : ∀ b bs, l = b :: bs → (!(isLitTok a && isLitTok b) || headIsLB b.data) = true) :
    AdjOK (a :: l) = true := by
  cases l with
  | nil => rfl
  | cons b bs =>
    rw [AdjOK_cons_pair]
    simp only [Bool.and_eq_true]
    exact ⟨h2 b bs rfl, h1⟩

theorem AdjOK_append (t : FmtToken) :
    ∀ l : List FmtToken, AdjOK l = true →
      (isLitTok t = true → endsLit l = true → headIsLB t.data = true) →
      AdjOK (l ++ [t]) = true := by
  intro l
  induction l with
  | nil => intro _ _; rfl
  | cons a l ih =>
    intro h h2
    cases l with
    | nil =>
      simp only [List.cons_append, List.nil_append]
      rw [AdjOK_cons_pair]
      cases hlt : isLitTok t
      · simp [hlt, AdjOK]
      · cases hla : isLitTok a
        · simp [hla, hlt, AdjOK]
        · have h3 := h2 hlt (by simpa [endsLit] using hla)
          simp [hla, hlt, h3, AdjOK]
    | cons b l₂ =>
      simp only [List.cons_append]
      rw [AdjOK_cons_pair]
      simp only [Bool.and_eq_true]
      refine ⟨AdjOK_pair h, ?_⟩
      have := ih (AdjOK_tail h) (fun ht he => h2 ht (by simp [endsLit]; exact he))
      simpa using this

theorem AdjOK_append_nonlit (l : List FmtToken) (t : FmtToken) (h : AdjOK l = true)
    (ht : isLitTok t = false) : AdjOK (l ++ [t]) = true := by
  refine AdjOK_append t l h (fun hc _ => ?_)
  rw [ht] at hc
  simp at hc

theorem noEndsLit_append (l : List FmtToken) (tok : FmtToken)
    (hnl : isLitTok tok = false) (P : Prop) : endsLit (l ++ [tok]) = true → P := by
  intro he
  rw [endsLit_append_single, hnl] at he
  exact absurd he Bool.false_ne_true

theorem headIsLB_append {o : List Char} (o₂ : List Char) (h : o ≠ []) :
    headIsLB (o ++ o₂) = headIsLB o := by
  cases o with
  | nil => exact absurd rfl h
  | cons c o₃ => rfl

theorem flush_c9 (t : List FmtToken) (o : List Char)
    (h : AdjOK t = true)
    (h2 : endsLit t = true → o ≠ [] → headIsLB o = true) :
    AdjOK (flush t o).1 = true := by
  unfold flush
  by_cases ho : o.isEmpty
  · rw [if_pos ho]; exact h
  · rw [if_neg ho]
    dsimp only
    refine AdjOK_append _ t h (fun _ he => h2 he ?_)
    intro hemp
    rw [hemp] at ho
    exact ho rfl

theorem flush_snd (t : List FmtToken) (o : List Char) : (flush t o).2 = [] := by
  unfold flush
  by_cases ho : o.isEmpty
  · rw [if_pos ho]
    dsimp only
    cases o with
    | nil => rfl
    | cons c o₂ => simp [List.isEmpty] at ho
  · rw [if_neg ho]

theorem endsLit_false_elim {t : List FmtToken} {P : Prop} (h3 : endsLit t = false)
    (he : endsLit t = true) : P := by
  rw [h3] at he
  exact absurd he Bool.false_ne_true

theorem flush_c9_noLit (t : List FmtToken) (o : List Char)
    (h : AdjOK t = true) (h3 : endsLit t = false) : AdjOK (flush t o).1 = true :=
  flush_c9 t o h (fun he => endsLit_false_elim h3 he)

theorem adjOK_flushAppend (t0 : List FmtToken) (o : List Char) (tok : FmtToken)
    (hA : AdjOK t0 = true)
    (hE : endsLit t0 = true → o ≠ [] → headIsLB o = true)
    (hnl : isLitTok tok = false) :
    AdjOK ((flush t0 o).1 ++ [tok]) = true :=
  AdjOK_append_nonlit _ _ (flush_c9 t0 o hA hE) hnl

theorem appendLB_c9 (o : List Char) (h : o ≠ [] → headIsLB o = true) :
    headIsLB (o ++ ['[']) = true := by
  cases o with
  | nil => rfl
  | cons c o₂ =>
    rw [headIsLB_append _ (List.cons_ne_nil c o₂)]
    exact h (List.cons_ne_nil c o₂)

theorem tokenizeCommon_c9 (t : List FmtToken) (r o : List Char)
    (h : AdjOK t = true)
    (h2 : endsLit t = true → o ≠ [] ∧ headIsLB o = true) :
    AdjOK (tokenizeCommon t r o).1 = true ∧
    (endsLit (tokenizeCommon t r o).1 = true →
      (tokenizeCommon t r o).2.2 ≠ [] ∧ headIsLB (tokenizeCommon t r o).2.2 = true) := by
  unfold tokenizeCommon
  cases r with
  | nil => exact ⟨h, h2⟩
  | cons ch rest =>
    dsimp only
    by_cases h1 : ch = '\\'
    · rw [if_pos h1]
      dsimp only
      refine ⟨h, fun he => ?_⟩
      obtain ⟨hne, hh⟩ := h2 he
      exact ⟨fun hc => hne (List.append_eq_nil.mp hc).1, by rw [headIsLB_append _ hne]; exact hh⟩
    · rw [if_neg h1]
      by_cases hq : ch = '"'
      · rw [if_pos hq]
        dsimp only
        refine ⟨h, fun he => ?_⟩
        obtain ⟨hne, hh⟩ := h2 he
        exact ⟨fun hc => hne (List.append_eq_nil.mp hc).1, by rw [headIsLB_append _ hne]; exact hh⟩
      · rw [if_neg hq]
        by_cases hu : ch = '_' ∨ ch = '*'
        · rw [if_pos hu]
          by_cases hlen : rest.length ≥ 1
          · rw [if_pos hlen]
            dsimp only
            refine ⟨?_, ?_⟩
            · exact adjOK_flushAppend _ _ _ h (fun he hne => (h2 he).2)
                (isLitTok_eq_false (by dsimp only; split_ifs <;> decide))
            · exact noEndsLit_append _ _
                (isLitTok_eq_false (by dsimp only; split_ifs <;> decide)) _
          · rw [if_neg hlen]
            dsimp only
            refine ⟨h, fun he => ?_⟩
            obtain ⟨hne, hh⟩ := h2 he
            exact ⟨fun hc => hne (List.append_eq_nil.mp hc).1,
              by rw [headIsLB_append _ hne]; exact hh⟩
        · rw [if_neg hu]
          dsimp only
          refine ⟨h, fun he => ?_⟩
          obtain ⟨hne, hh⟩ := h2 he
          exact ⟨fun hc => hne (List.append_eq_nil.mp hc).1,
            by rw [headIsLB_append _ hne]; exact hh⟩

theorem tokenizeCommon_endsLit (t : List FmtToken) (r o : List Char)
    (h : endsLit t = false) : endsLit (tokenizeCommon t r o).1 = false := by
  unfold tokenizeCommon
  cases r with
  | nil => exact h
  | cons ch rest =>
    dsimp only
    by_cases h1 : ch = '\\'
    · rw [if_pos h1]; exact h
    · rw [if_neg h1]
      by_cases hq : ch = '"'
      · rw [if_pos hq]; exact h
      · rw [if_neg hq]
        by_cases hu : ch = '_' ∨ ch = '*'
        · rw [if_pos hu]
          by_cases hlen : rest.length ≥ 1
          · rw [if_pos hlen]
            dsimp only
            rw [endsLit_append_single]
            exact isLitTok_eq_false (by dsimp only; split_ifs <;> decide)
          · rw [if_neg hlen]; exact h
        · rw [if_neg hu]; exact h

theorem AdjOK_set_nonlit (tt : FmtTokenType) (htt : ¬tt = .TokLiteral) :
    ∀ (idx : ℕ) (l : List FmtToken), AdjOK l = true → AdjOK (setTokType l idx tt) = true := by
  intro idx
  induction idx with
  | zero =>
    intro l h
    cases l with
    | nil => exact h
    | cons a ls =>
      show AdjOK ({ (a :: ls).getD 0 {} with typ := tt } :: ls) = true
      refine AdjOK_cons _ _ (AdjOK_tail h) ?_
      intro b bs hbs
      rw [isLitTok_eq_false (t := { (a :: ls).getD 0 {} with typ := tt }) htt]
      simp
  | succ idx ih =>
    intro l h
    cases l with
    | nil => exact h
    | cons a ls =>
      show AdjOK (a :: setTokType ls idx tt) = true
      refine AdjOK_cons _ _ (ih ls (AdjOK_tail h)) ?_
      intro b bs hbs
      cases ls with
      | nil => simp [setTokType] at hbs
      | cons c cs =>
        cases idx with
        | zero =>
          have hb : b = { (c :: cs).getD 0 {} with typ := tt } := by
            rw [show setTokType (c :: cs) 0 tt
                = { (c :: cs).getD 0 {} with typ := tt } :: cs from rfl] at hbs
            injection hbs with hb₁ hb₂
            exact hb₁.symm
          rw [hb, isLitTok_eq_false (t := { (c :: cs).getD 0 {} with typ := tt }) htt]
          simp
        | succ j =>
          have hb : b = c := by
            rw [show setTokType (c :: cs) (j + 1) tt = c :: setTokType cs j tt from rfl] at hbs
            injection hbs with hb₁ hb₂
            exact hb₁.symm
          rw [hb]
          exact AdjOK_pair h

theorem monthRel_lit {a p : FmtToken} (h : monthRel a p) :
    isLitTok a = isLitTok p ∧ a.data = p.data := by
  rcases h with rfl | ⟨hm, rfl⟩
  · exact ⟨rfl, rfl⟩
  · refine ⟨?_, rfl⟩
    rw [isLitTok_eq_false (t := { p with typ := .TokMinute }) (by simp),
      isLitTok_eq_false (by simp [hm])]

theorem zipResF_forall2 :
    ∀ (rest pref : List FmtToken) (hd ht : Bool),
      List.Forall₂ monthRel (zipResF pref rest hd ht).1 rest := by
  intro rest
  induction rest with
  | nil => intro pref hd ht; exact List.Forall₂.nil
  | cons t rs ih =>
    intro pref hd ht
    unfold zipResF
    by_cases hm : t.typ = .TokMonth
    · rw [if_pos hm]
      split
      · exact List.Forall₂.cons (Or.inr ⟨hm, rfl⟩) (ih (pref ++ [t]) hd true)
      · exact List.Forall₂.cons (Or.inl rfl) (ih (pref ++ [t]) true ht)
    · rw [if_neg hm]
      exact List.Forall₂.cons (Or.inl rfl) (ih (pref ++ [t]) hd ht)

theorem AdjOK_of_forall2 :
    ∀ (l₂ l : List FmtToken), List.Forall₂ monthRel l₂ l → AdjOK l = true →
      AdjOK l₂ = true := by
  intro l₂
  induction l₂ with
  | nil => intro l h hOK; rfl
  | cons a l₃ ih =>
    intro l h hOK
    cases h with
    | cons hap htail =>
      rename_i p m
      cases l₃ with
      | nil => rfl
      | cons b l₄ =>
        cases htail with
        | cons hbq htail₂ =>
          rename_i q m₂
          rw [AdjOK_cons_pair]
          simp only [Bool.and_eq_true]
          refine ⟨?_, ih (q :: m₂) (List.Forall₂.cons hbq htail₂) (AdjOK_tail hOK)⟩
          obtain ⟨e₁, _⟩ := monthRel_lit hap
          obtain ⟨e₂, e₃⟩ := monthRel_lit hbq
          rw [e₁, e₂, e₃]
          exact AdjOK_pair hOK

/-- The time scan loop maintains the C9 adjacency invariant: the token list
satisfies `AdjOK` and, while it still ends with a `Literal`, the pending
buffer is bracket-headed or empty with the remainder on a safe head. -/
theorem timeLoop_c9 (fuel : Nat) :
    ∀ s : TimeScanState,
      AdjOK s.tokens = true →
      (endsLit s.tokens = true →
        (s.other ≠ [] → headIsLB s.other = true) ∧
        (s.other = [] → s.rem = [] ∨ timeHeadOK (s.rem.headD ' '))) →
      AdjOK (timeLoop fuel s).tokens = true ∧
      (endsLit (timeLoop fuel s).tokens = true →
        (timeLoop fuel s).other ≠ [] → headIsLB (timeLoop fuel s).other = true) := by
  induction fuel with
  | zero => intro s hA hE; exact ⟨hA, fun he => (hE he).1⟩
  | succ fuel ih =>
    intro s hA hE
    unfold timeLoop
    cases hrem : s.rem with
    | nil => exact ⟨hA, fun he => (hE he).1⟩
    | cons ch rest =>
      dsimp only
      by_cases hg1 : ch = 'y' ∨ ch = 'm' ∨ ch = 'd' ∨ ch = 'h' ∨ ch = 's' ∨ ch = '0'
      · rw [if_pos hg1]
        refine ih _ ?_ ?_
        · dsimp only
          exact adjOK_flushAppend _ _ _ hA (fun he => (hE he).1)
            (isLitTok_eq_false (by dsimp only; split_ifs <;> decide))
        · dsimp only
          exact noEndsLit_append _ _
            (isLitTok_eq_false (by dsimp only; split_ifs <;> decide)) _
      · rw [if_neg hg1]
        by_cases hg2 : ch = '['
        · rw [if_pos hg2]
          by_cases hlen : (ch :: rest).length < 3
          · rw [if_pos hlen]
            refine ih _ ?_ ?_
            · dsimp only; exact hA
            · dsimp only
              intro he
              exact ⟨fun _ => appendLB_c9 _ (hE he).1, fun hemp => absurd hemp (by simp)⟩
          · rw [if_neg hlen]
            split
            · split
              · refine ih _ ?_ ?_
                · dsimp only
                  exact adjOK_flushAppend _ _ _ hA (fun he => (hE he).1)
                    (isLitTok_eq_false (by dsimp only; split_ifs <;> decide))
                · dsimp only
                  exact noEndsLit_append _ _
                    (isLitTok_eq_false (by dsimp only; split_ifs <;> decide)) _
              · refine ih _ ?_ ?_
                · dsimp only; exact hA
                · dsimp only
                  intro he
                  exact ⟨fun _ => appendLB_c9 _ (hE he).1, fun hemp => absurd hemp (by simp)⟩
            · refine ih _ ?_ ?_
              · dsimp only; exact hA
              · dsimp only
                intro he
                exact ⟨fun _ => appendLB_c9 _ (hE he).1, fun hemp => absurd hemp (by simp)⟩
        · rw [if_neg hg2]
          by_cases hg3 : ch = 'A' ∨ ch = 'a'
          · rw [if_pos hg3]
            by_cases hap : (ch :: rest).take 3 = "A/P".toList ∨ (ch :: rest).take 3 = "a/p".toList
            · rw [if_pos hap]
              refine ih _ ?_ ?_
              · dsimp only
                exact adjOK_flushAppend _ _ _ hA (fun he => (hE he).1)
                  (isLitTok_eq_false (by dsimp only; decide))
              · dsimp only
                exact noEndsLit_append _ _ (isLitTok_eq_false (by dsimp only; decide)) _
            · rw [if_neg hap]
              by_cases hap5 : (ch :: rest).take 5 = "AM/PM".toList ∨
                  (ch :: rest).take 5 = "am/pm".toList
              · rw [if_pos hap5]
                refine ih _ ?_ ?_
                · dsimp only
                  exact adjOK_flushAppend _ _ _ hA (fun he => (hE he).1)
                    (isLitTok_eq_false (by dsimp only; decide))
                · dsimp only
                  exact noEndsLit_append _ _ (isLitTok_eq_false (by dsimp only; decide)) _
              · rw [if_neg hap5]
                refine ih _ ?_ ?_
                · dsimp only; exact hA
                · dsimp only
                  intro he
                  have hne : s.other ≠ [] := by
                    intro hemp
                    rcases (hE he).2 hemp with hnil | hth
                    · rw [hrem] at hnil
                      exact List.cons_ne_nil ch rest hnil
                    · rw [hrem] at hth
                      rcases hg3 with rfl | rfl <;> simp +decide [timeHeadOK] at hth
                  refine ⟨fun _ => ?_, fun hemp => absurd hemp (by simp)⟩
                  rw [headIsLB_append _ hne]
                  exact (hE he).1 hne
          · rw [if_neg hg3]
            by_cases hg4 : ch = ';'
            · rw [if_pos hg4]
              refine ⟨?_, ?_⟩
              · dsimp only
                exact flush_c9 _ _ hA (fun he => (hE he).1)
              · dsimp only
                intro _ hne
                exact absurd (flush_snd s.tokens s.other) hne
            · rw [if_neg hg4]
              have h2' : endsLit s.tokens = true → s.other ≠ [] ∧ headIsLB s.other = true := by
                intro he
                have hne : s.other ≠ [] := by
                  intro hemp
                  rcases (hE he).2 hemp with hnil | hth
                  · rw [hrem] at hnil
                    exact List.cons_ne_nil ch rest hnil
                  · rw [hrem] at hth
                    simp only [List.headD_cons] at hth
                    unfold timeHeadOK at hth
                    tauto
                exact ⟨hne, (hE he).1 hne⟩
              have htc := tokenizeCommon_c9 s.tokens (ch :: rest) s.other hA h2'
              refine ih _ ?_ ?_
              · dsimp only; exact htc.1
              · dsimp only
                intro he
                exact ⟨fun _ => (htc.2 he).2, fun hemp => absurd hemp (htc.2 he).1⟩

/-- `tokenizeTime` called with an `AdjOK` prefix ending on a safe head
produces a section whose tokens satisfy `AdjOK`: the scan keeps the
invariant and the month/minute pass never changes literal-ness or data. -/
theorem tokenizeTime_c9 (init : List FmtToken) (format : List Char)
    (hA : AdjOK init = true)
    (hE : endsLit init = true → format = [] ∨ timeHeadOK (format.headD ' ')) :
    AdjOK (tokenizeTime init format).1.tokens = true := by
  have hloop := timeLoop_c9 format.length { tokens := init, rem := format } hA
    (fun he => ⟨fun hne => absurd rfl hne, fun _ => hE he⟩)
  have hscan : AdjOK (timeScan init format).tokens = true := by
    unfold timeScan
    dsimp only
    exact flush_c9 _ _ hloop.1 hloop.2
  unfold tokenizeTime
  dsimp only
  rw [resolveMonths_eq_zip _ [] [] _ _ List.Forall₂.nil]
  dsimp only
  simp only [List.nil_append]
  exact AdjOK_of_forall2 _ _ (zipResF_forall2 _ _ _ _) hscan

/-- The numeric scan loop maintains the C9 adjacency invariant. -/
theorem numLoop_c9 (fuel : Nat) :
    ∀ s : NumTokState,
      AdjOK s.tokens = true →
      (endsLit s.tokens = true →
        (s.other ≠ [] → headIsLB s.other = true) ∧
        (s.other = [] → s.rem = [] ∨ numHeadOK (s.rem.headD ' '))) →
      AdjOK (numLoop fuel s).tokens = true ∧
      (endsLit (numLoop fuel s).tokens = true →
        (numLoop fuel s).other ≠ [] → headIsLB (numLoop fuel s).other = true) := by
  induction fuel with
  | zero => intro s hA hE; exact ⟨hA, fun he => (hE he).1⟩
  | succ fuel ih =>
    intro s hA hE
    unfold numLoop
    cases hrem : s.rem with
    | nil => exact ⟨hA, fun he => (hE he).1⟩
    | cons ch rest =>
      dsimp only
      by_cases hg1 : ch = '0' ∨ ch = '?' ∨ ch = '#'
      · rw [if_pos hg1]
        by_cases hif : s.inFrac = true
        · rw [if_pos hif]
          refine ih _ ?_ ?_
          · dsimp only
            exact adjOK_flushAppend _ _ _ hA (fun he => (hE he).1)
              (isLitTok_eq_false (by dsimp only; decide))
          · dsimp only
            exact noEndsLit_append _ _ (isLitTok_eq_false (by dsimp only; decide)) _
        · rw [if_neg hif]
          by_cases hid : s.inDec = true
          · rw [if_pos hid]
            refine ih _ ?_ ?_
            · dsimp only
              exact adjOK_flushAppend _ _ _ hA (fun he => (hE he).1)
                (isLitTok_eq_false (by dsimp only; decide))
            · dsimp only
              exact noEndsLit_append _ _ (isLitTok_eq_false (by dsimp only; decide)) _
          · rw [if_neg hid]
            refine ih _ ?_ ?_
            · dsimp only
              exact adjOK_flushAppend _ _ _ hA (fun he => (hE he).1)
                (isLitTok_eq_false (by dsimp only; decide))
            · dsimp only
              exact noEndsLit_append _ _ (isLitTok_eq_false (by dsimp only; decide)) _
      · rw [if_neg hg1]
        by_cases hg2 : ch = '.'
        · rw [if_pos hg2]
          refine ih _ ?_ ?_
          · dsimp only
            exact AdjOK_append_nonlit _ _ hA (isLitTok_eq_false (by dsimp only; decide))
          · dsimp only
            exact noEndsLit_append _ _ (isLitTok_eq_false (by dsimp only; decide)) _
        · rw [if_neg hg2]
          by_cases hg3 : ch = '/'
          · rw [if_pos hg3]
            split
            · refine ih _ ?_ ?_
              · dsimp only
                refine AdjOK_append_nonlit _ _ ?_ (isLitTok_eq_false (by dsimp only; decide))
                exact AdjOK_set_nonlit .TokNumFracNum (by decide) _ _
                  (flush_c9 _ _ hA (fun he => (hE he).1))
              · dsimp only
                exact noEndsLit_append _ _ (isLitTok_eq_false (by dsimp only; decide)) _
            · refine ih _ ?_ ?_
              · dsimp only; exact hA
              · dsimp only
                intro he
                have hne : s.other ≠ [] := by
                  intro hemp
                  rcases (hE he).2 hemp with hnil | hth
                  · rw [hrem] at hnil
                    exact List.cons_ne_nil ch rest hnil
                  · rw [hrem] at hth
                    simp only [List.headD_cons] at hth
                    rw [hg3] at hth
                    simp +decide [numHeadOK] at hth
                exact ⟨fun _ => (hE he).1 hne, fun hemp => absurd hemp hne⟩
          · rw [if_neg hg3]
            by_cases hg4 : '1' ≤ ch ∧ ch ≤ '9'
            · rw [if_pos hg4]
              by_cases hif : s.inFrac = true
              · rw [if_pos hif]
                refine ih _ ?_ ?_
                · dsimp only
                  exact adjOK_flushAppend _ _ _ hA (fun he => (hE he).1)
                    (isLitTok_eq_false (by dsimp only; decide))
                · dsimp only
                  exact noEndsLit_append _ _ (isLitTok_eq_false (by dsimp only; decide)) _
              · rw [if_neg hif]
                refine ih _ ?_ ?_
                · dsimp only; exact hA
                · dsimp only
                  intro he
                  have hne : s.other ≠ [] := by
                    intro hemp
                    rcases (hE he).2 hemp with hnil | hth
                    · rw [hrem] at hnil
                      exact List.cons_ne_nil ch rest hnil
                    · rw [hrem] at hth
                      simp only [List.headD_cons] at hth
                      unfold numHeadOK at hth
                      rcases hth with h | h | h | h | h
                      · exact hg1 (Or.inl h)
                      · exact hg1 (Or.inr (Or.inl h))
                      · exact hg1 (Or.inr (Or.inr h))
                      · exact hg2 h
                      · rw [h] at hg4
                        exact absurd hg4.2 (by decide)
                  refine ⟨fun _ => ?_, fun hemp =>
                    absurd hemp (fun hc => hne (List.append_eq_nil.mp hc).1)⟩
                  rw [headIsLB_append _ hne]
                  exact (hE he).1 hne
            · rw [if_neg hg4]
              by_cases hg5 : ch = '%'
              · rw [if_pos hg5]
                refine ih _ ?_ ?_
                · dsimp only
                  exact adjOK_flushAppend _ _ _ hA (fun he => (hE he).1)
                    (isLitTok_eq_false (by dsimp only; decide))
                · dsimp only
                  exact noEndsLit_append _ _ (isLitTok_eq_false (by dsimp only; decide)) _
              · rw [if_neg hg5]
                by_cases hg6 : ch = 'E' ∨ ch = 'e'
                · rw [if_pos hg6]
                  refine ih _ ?_ ?_
                  · dsimp only
                    exact adjOK_flushAppend _ _ _ hA (fun he => (hE he).1)
                      (isLitTok_eq_false (by dsimp only; decide))
                  · dsimp only
                    exact noEndsLit_append _ _ (isLitTok_eq_false (by dsimp only; decide)) _
                · rw [if_neg hg6]
                  by_cases hg7 : ch = ';'
                  · rw [if_pos hg7]
                    refine ⟨?_, ?_⟩
                    · dsimp only
                      exact flush_c9 _ _ hA (fun he => (hE he).1)
                    · dsimp only
                      intro _ hne
                      exact absurd (flush_snd s.tokens s.other) hne
                  · rw [if_neg hg7]
                    have h2' : endsLit s.tokens = true →
                        s.other ≠ [] ∧ headIsLB s.other = true := by
                      intro he
                      have hne : s.other ≠ [] := by
                        intro hemp
                        rcases (hE he).2 hemp with hnil | hth
                        · rw [hrem] at hnil
                          exact List.cons_ne_nil ch rest hnil
                        · rw [hrem] at hth
                          simp only [List.headD_cons] at hth
                          unfold numHeadOK at hth
                          tauto
                      exact ⟨hne, (hE he).1 hne⟩
                    have htc := tokenizeCommon_c9 s.tokens (ch :: rest) s.other hA h2'
                    refine ih _ ?_ ?_
                    · dsimp only; exact htc.1
                    · dsimp only
                      intro he
                      exact ⟨fun _ => (htc.2 he).2, fun hemp => absurd hemp (htc.2 he).1⟩

/-- `tokenizeNumeric` called with an `AdjOK` prefix ending on a safe head
produces a section whose tokens satisfy `AdjOK`. -/
theorem tokenizeNumeric_c9 (init : List FmtToken) (format : List Char)
    (hA : AdjOK init = true)
    (hE : endsLit init = true → format = [] ∨ numHeadOK (format.headD ' ')) :
    AdjOK (tokenizeNumeric init format).1.tokens = true := by
  have hloop := numLoop_c9 format.length { tokens := init, rem := format } hA
    (fun he => ⟨fun hne => absurd rfl hne, fun _ => hE he⟩)
  unfold tokenizeNumeric
  dsimp only
  exact flush_c9 _ _ hloop.1 hloop.2

/-- The top-level parse loop keeps every emitted section `AdjOK` and its
working token list `AdjOK` and never ending in a `Literal` (every flush in
`parseLoop` is immediately followed by a non-literal append or a section
cut). -/
theorem parseLoop_c9 (fuel : Nat) :
    ∀ s : ParseState,
      (∀ sec ∈ s.sets, AdjOK sec.tokens = true) →
      AdjOK s.tokens = true →
      endsLit s.tokens = false →
      (∀ sec ∈ (parseLoop fuel s).sets, AdjOK sec.tokens = true) ∧
      AdjOK (parseLoop fuel s).tokens = true ∧
      endsLit (parseLoop fuel s).tokens = false := by
  induction fuel with
  | zero => intro s h1 h2 h3; exact ⟨h1, h2, h3⟩
  | succ fuel ih =>
    intro s h1 h2 h3
    unfold parseLoop
    cases hrem : s.rem with
    | nil => exact ⟨h1, h2, h3⟩
    | cons ch rest =>
      dsimp only
      by_cases hg1 : ch = 'y' ∨ ch = 'm' ∨ ch = 'd' ∨ ch = 'h' ∨ ch = 's'
      · rw [if_pos hg1]
        refine ih _ ?_ (by dsimp only; decide) (by dsimp only; decide)
        dsimp only
        intro sec hsec
        rw [List.mem_append] at hsec
        rcases hsec with hs | hs
        · exact h1 sec hs
        · rw [List.mem_singleton] at hs
          subst hs
          refine tokenizeTime_c9 _ _ (flush_c9_noLit _ _ h2 h3) (fun _ => Or.inr ?_)
          simp only [List.headD_cons]
          unfold timeHeadOK
          tauto
      · rw [if_neg hg1]
        by_cases hg2 : ch = '#' ∨ ch = '?' ∨ ch = '0' ∨ ch = '.'
        · rw [if_pos hg2]
          refine ih _ ?_ (by dsimp only; decide) (by dsimp only; decide)
          dsimp only
          intro sec hsec
          rw [List.mem_append] at hsec
          rcases hsec with hs | hs
          · exact h1 sec hs
          · rw [List.mem_singleton] at hs
            subst hs
            refine tokenizeNumeric_c9 _ _ (flush_c9_noLit _ _ h2 h3) (fun _ => Or.inr ?_)
            simp only [List.headD_cons]
            unfold numHeadOK
            tauto
        · rw [if_neg hg2]
          by_cases hg3 : ch = 'g' ∨ ch = 'G'
          · rw [if_pos hg3]
            by_cases hgen : ((ch :: rest).take 7).map lowerAscii = "general".toList
            · rw [if_pos hgen]
              refine ih _ ?_ ?_ ?_
              · dsimp only; exact h1
              · dsimp only
                exact AdjOK_append_nonlit _ _ (flush_c9_noLit _ _ h2 h3)
                  (isLitTok_eq_false (by dsimp only; decide))
              · dsimp only
                rw [endsLit_append_single]
                exact isLitTok_eq_false (by dsimp only; decide)
            · rw [if_neg hgen]
              exact ih _ h1 h2 h3
          · rw [if_neg hg3]
            by_cases hg4 : ch = '['
            · rw [if_pos hg4]
              by_cases hemp : (readToChar rest ']').1.isEmpty = true
              · rw [if_pos hemp]
                exact ih _ h1 h2 h3
              · rw [if_neg hemp]
                by_cases hcol : isColor (readToChar rest ']').1 = true
                · rw [if_pos hcol]
                  refine ih _ ?_ ?_ ?_
                  · dsimp only; exact h1
                  · dsimp only
                    exact AdjOK_append_nonlit _ _ (flush_c9_noLit _ _ h2 h3)
                      (isLitTok_eq_false (by dsimp only; decide))
                  · dsimp only
                    rw [endsLit_append_single]
                    exact isLitTok_eq_false (by dsimp only; decide)
                · rw [if_neg hcol]
                  by_cases hhms : (readToChar rest ']').1.headD ' ' = 'h' ∨
                      (readToChar rest ']').1.headD ' ' = 'm' ∨
                      (readToChar rest ']').1.headD ' ' = 's'
                  · rw [if_pos hhms]
                    refine ih _ ?_ (by dsimp only; decide) (by dsimp only; decide)
                    dsimp only
                    intro sec hsec
                    rw [List.mem_append] at hsec
                    rcases hsec with hs | hs
                    · exact h1 sec hs
                    · rw [List.mem_singleton] at hs
                      subst hs
                      refine tokenizeTime_c9 _ _ (flush_c9_noLit _ _ h2 h3)
                        (fun _ => Or.inr ?_)
                      simp only [List.headD_cons]
                      unfold timeHeadOK
                      tauto
                  · rw [if_neg hhms]
                    by_cases hcond : (readToChar rest ']').1.headD ' ' = '<' ∨
                        (readToChar rest ']').1.headD ' ' = '>' ∨
                        (readToChar rest ']').1.headD ' ' = '='
                    · rw [if_pos hcond]
                      refine ih _ ?_ ?_ ?_
                      · dsimp only; exact h1
                      · dsimp only
                        exact AdjOK_append_nonlit _ _ (flush_c9_noLit _ _ h2 h3)
                          (isLitTok_eq_false (by dsimp only; decide))
                      · dsimp only
                        rw [endsLit_append_single]
                        exact isLitTok_eq_false (by dsimp only; decide)
                    · rw [if_neg hcond]
                      exact ih _ h1 h2 h3
            · rw [if_neg hg4]
              by_cases hg5 : ch = ';'
              · rw [if_pos hg5]
                refine ih _ ?_ (by dsimp only; decide) (by dsimp only; decide)
                dsimp only
                intro sec hsec
                rw [List.mem_append] at hsec
                rcases hsec with hs | hs
                · exact h1 sec hs
                · rw [List.mem_singleton] at hs
                  subst hs
                  dsimp only
                  exact flush_c9_noLit _ _ h2 h3
              · rw [if_neg hg5]
                by_cases hg6 : ch = '@'
                · rw [if_pos hg6]
                  refine ih _ ?_ ?_ ?_
                  · dsimp only; exact h1
                  · dsimp only
                    exact AdjOK_append_nonlit _ _ (flush_c9_noLit _ _ h2 h3)
                      (isLitTok_eq_false (by dsimp only; decide))
                  · dsimp only
                    rw [endsLit_append_single]
                    exact isLitTok_eq_false (by dsimp only; decide)
                · rw [if_neg hg6]
                  have htc := tokenizeCommon_c9 s.tokens (ch :: rest) s.other h2
                    (fun he => endsLit_false_elim h3 he)
                  refine ih _ ?_ ?_ ?_
                  · dsimp only; exact h1
                  · dsimp only; exact htc.1
                  · dsimp only
                    exact tokenizeCommon_endsLit s.tokens (ch :: rest) s.other h3

/-- C9 counterexample: parsing `$[hx]` produces a single time section whose
first two tokens are both `Literal` (`$`, then `[`): the top level flushes
the pending `$` before handing `[hx]` to the time tokenizer, which seeds a
fresh literal `[` when the bracket run turns out not to be a total-time
token, so consecutive literal fragments are not always merged. -/
theorem c9_counterexample :
    (ParseFormat ("$[hx]".toList)).sections =
      [{ typ := .TimeFormat, subTyp := .Time, tokens :=
          [{ typ := .TokLiteral, data := ['$'] },
           { typ := .TokLiteral, data := ['['] },
           { typ := .TokHour, size := 1 },
           { typ := .TokLiteral, data := ['x', ']'] }] }] ∧
    isLitTok (((ParseFormat ("$[hx]".toList)).sections.getD 0 {}).tokens.getD 0 {}) = true ∧
    isLitTok (((ParseFormat ("$[hx]".toList)).sections.getD 0 {}).tokens.getD 1 {}) = true := by
  decide

/-- C9 (amended): in every section of every compiled format, any adjacent
pair of `Literal` tokens has the second literal's data starting with `[`
(`AdjOK`); such pairs arise only from the bracketed time path when a `[` run
is not a valid total-time token, never from literal fragments that the
construction could have merged into the preceding literal. -/
theorem c9_adjacent_literals (format : List Char) :
    ∀ sec ∈ (ParseFormat format).sections, AdjOK sec.tokens = true := by
  have hp := parseLoop_c9 format.length { rem := format }
    (fun sec hsec => absurd hsec (List.not_mem_nil sec)) rfl rfl
  intro sec hsec
  unfold ParseFormat at hsec
  dsimp only at hsec
  by_cases hlen : ((flush (parseLoop format.length { rem := format }).tokens
      (parseLoop format.length { rem := format }).other).1).length > 0
  · rw [if_pos hlen] at hsec
    rw [List.mem_append] at hsec
    rcases hsec with hs | hs
    · exact hp.1 sec hs
    · rw [List.mem_singleton] at hs
      subst hs
      dsimp only
      exact flush_c9_noLit _ _ hp.2.1 hp.2.2
  · rw [if_neg hlen] at hsec
    exact hp.1 sec hsec

/-- C9 witness: the amended invariant evaluated on the counterexample format
`$[hx]` (the second literal of its adjacent pair is exactly `[`). -/
theorem c9_adjacent_literals_witness :
    AdjOK ((ParseFormat ("$[hx]".toList)).sections.getD 0 {}).tokens = true :=
  c9_adjacent_literals ("$[hx]".toList) _ (by decide)

/-- C1 witness: the rule table applied to `#.#;(#.#)` at `-1.2` (section 1,
no sign prefix). -/
theorem c1_section_selection_witness :
    FormatValue (ParseFormat ("#.#;(#.#)".toList)) ("-1.2".toList) .CellTypeNumeric false =
      renderResult (.num (mkRat (-12) 10))
        ((ParseFormat ("#.#;(#.#)".toList)).sections.getD 1 {}) ("-1.2".toList)
        |(mkRat (-12) 10 : ℚ)| false :=
  (c1_section_selection (ParseFormat ("#.#;(#.#)".toList)) ("-1.2".toList)
      (mkRat (-12) 10) false (by decide) (by decide)).2.1 (by decide) (by decide)

end Xlsx
